import Mathlib

/-!
# RediSearch: sorted-vector searches, rune buffers and field types

A shallow embedding of

* `src/util/bsearch.h`   : `rsb_gt_vec`, `rsb_lt_vec`, `rsb_eq_vec`
* `src/trie/rune_util.h` : `Runes::setup_storage`, `Runes::append`, `Runes::copy`,
  `Runes::len`, `Runes::nbytes`, `Runes::empty` and the constructors from a string
* `src/field_spec.h`     : `fieldTypeToValueType`, `INDEXTYPE_TO_POS`,
  `INDEXTYPE_FROM_POS`

Conventions of the embedding.

* A `Vector<T>` is a `List α`; `vec[i]` outside `[0, vec.size())` is undefined
  behaviour in the source and is the fault `Fault.outOfRange` here.
* `size_t` values are natural numbers.  Unsigned subtraction wraps below zero
  (`size_sub`).  Sums of two indices of a vector held in memory stay below
  `2^64`, so `begin + end` is the plain sum.  The sizes of a rune buffer are
  added and multiplied modulo `2^64` (`size_add`, `size_mul`).
* The searches return `int`; an index is returned with its value (vector sizes
  are representable in `int`), and `begin -= 1` at `begin = 0`, which wraps to
  `SIZE_MAX` and converts to the `int` `-1`, is returned as `begin - 1`.
* The `while` loops are iterated with a fuel counter; the entry points supply
  `vec.size() + 1` units, and running out of fuel is the fault `Fault.fuel`.
-/

namespace RediSearch

/-! ## `src/util/bsearch.h` -/

/-- Ways in which a run of a search can fail to return a value. -/
inductive Fault where
  /-- An element access `vec[i]` with `i` outside `[0, vec.size())`. -/
  | outOfRange
  /-- The statement `assert(begin == end)` failed. -/
  | assertion
  /-- The loop was still running when the fuel was used up. -/
  | fuel
  deriving DecidableEq, Repr

/-- Outcome of a search: the returned `int`, or a fault. -/
inductive Res (α : Type) where
  | ok (r : α)
  | error (f : Fault)
  deriving DecidableEq, Repr

/-- The comparator `typedef int (*rsbcompare)(const void *s, const void *elem)`:
negative, zero or positive as the target `s` is less than, equal to or greater
than the element. -/
abbrev rsbcompare (σ α : Type) := σ → α → Int

/-- Number of values of `size_t`. -/
def SIZE_MOD : Nat := 2 ^ 64

/-- Subtraction of `size_t` values: wraps around below zero. -/
def size_sub (a b : Nat) : Nat :=
  if b ≤ a then a - b else a + SIZE_MOD - b

/-- Addition of `size_t` values: modulo `2^64`. -/
def size_add (a b : Nat) : Nat := (a + b) % SIZE_MOD

/-- Multiplication of `size_t` values: modulo `2^64`. -/
def size_mul (a b : Nat) : Nat := (a * b) % SIZE_MOD

/-- Element access `vec[i]`. -/
def vecAt {α : Type} (vec : List α) (i : Nat) : Res α :=
  match vec.get? i with
  | some p => Res.ok p
  | none => Res.error Fault.outOfRange

/-- One iteration of the loop body of `rsb_gt_vec` (floor midpoint), from a
state with `begin < end`: the next pair `(begin, end)`. -/
def rsb_gt_step {σ α : Type} (vec : List α) (s : σ) (cmp : rsbcompare σ α)
    (begin end_ : Nat) : Res (Nat × Nat) :=
  let cur := (begin + end_) / 2
  match vecAt vec cur with
  | Res.error f => Res.error f
  | Res.ok p =>
    let rc := cmp s p
    if rc = 0 then
      Res.ok (cur + 1, end_)
    else if rc < 0 then
      Res.ok (begin, cur)
    else
      Res.ok (cur + 1, end_)

/-- The loop `while (begin < end) { ... }` of `rsb_gt_vec`: the pair
`(begin, end)` at loop exit. -/
def rsb_gt_loop {σ α : Type} (vec : List α) (s : σ) (cmp : rsbcompare σ α) :
    Nat → Nat → Nat → Res (Nat × Nat)
  | fuel, begin, end_ =>
    if begin < end_ then
      match fuel with
      | 0 => Res.error Fault.fuel
      | fuel + 1 =>
        match rsb_gt_step vec s cmp begin end_ with
        | Res.error f => Res.error f
        | Res.ok (b, e) => rsb_gt_loop vec s cmp fuel b e
    else
      Res.ok (begin, end_)

/-- The function `rsb_gt_vec(vec, s, cmp)`. -/
def rsb_gt_vec {σ α : Type} (vec : List α) (s : σ) (cmp : rsbcompare σ α) : Res Int :=
  match rsb_gt_loop vec s cmp (vec.length + 1) 0 (size_sub vec.length 1) with
  | Res.error f => Res.error f
  | Res.ok (begin, end_) =>
    if begin ≠ end_ then
      Res.error Fault.assertion
    else if begin ≠ size_sub vec.length 1 then
      Res.ok (begin : Int)
    else
      match vecAt vec begin with
      | Res.error f => Res.error f
      | Res.ok p =>
        let rc := cmp s p
        if rc ≥ 0 then
          Res.ok ((begin : Int) + 1)
        else
          Res.ok (begin : Int)

/-- One iteration of the loop body of `rsb_lt_vec` (ceiling midpoint), from a
state with `begin < end`: the next pair `(begin, end)`. -/
def rsb_lt_step {σ α : Type} (vec : List α) (s : σ) (cmp : rsbcompare σ α)
    (begin end_ : Nat) : Res (Nat × Nat) :=
  let cur := ((begin + end_) / 2) + ((begin + end_) % 2)
  match vecAt vec cur with
  | Res.error f => Res.error f
  | Res.ok p =>
    let rc := cmp s p
    if rc = 0 then
      Res.ok (begin, size_sub cur 1)
    else if rc < 0 then
      Res.ok (begin, size_sub cur 1)
    else
      Res.ok (cur, end_)

/-- The loop `while (begin < end) { ... }` of `rsb_lt_vec`: the pair
`(begin, end)` at loop exit. -/
def rsb_lt_loop {σ α : Type} (vec : List α) (s : σ) (cmp : rsbcompare σ α) :
    Nat → Nat → Nat → Res (Nat × Nat)
  | fuel, begin, end_ =>
    if begin < end_ then
      match fuel with
      | 0 => Res.error Fault.fuel
      | fuel + 1 =>
        match rsb_lt_step vec s cmp begin end_ with
        | Res.error f => Res.error f
        | Res.ok (b, e) => rsb_lt_loop vec s cmp fuel b e
    else
      Res.ok (begin, end_)

/-- The function `rsb_lt_vec(vec, s, cmp)`. -/
def rsb_lt_vec {σ α : Type} (vec : List α) (s : σ) (cmp : rsbcompare σ α) : Res Int :=
  match rsb_lt_loop vec s cmp (vec.length + 1) 0 (size_sub vec.length 1) with
  | Res.error f => Res.error f
  | Res.ok (begin, end_) =>
    if begin ≠ end_ then
      Res.error Fault.assertion
    else if begin ≠ 0 then
      Res.ok (begin : Int)
    else
      match vecAt vec begin with
      | Res.error f => Res.error f
      | Res.ok p =>
        let rc := cmp s p
        if rc ≤ 0 then
          Res.ok ((begin : Int) - 1)
        else
          Res.ok (begin : Int)

/-- Result of one iteration of the loop body of `rsb_eq_vec`. -/
inductive EqStep where
  /-- The statement `return cur` inside the loop. -/
  | found (cur : Nat)
  /-- The loop goes on (or exits) with this `begin` and `end`. -/
  | next (begin end_ : Nat)
  deriving DecidableEq, Repr

/-- One iteration of the loop body of `rsb_eq_vec` (ceiling midpoint), from a
state with `begin < end`. -/
def rsb_eq_step {σ α : Type} (vec : List α) (s : σ) (cmp : rsbcompare σ α)
    (begin end_ : Nat) : Res EqStep :=
  let cur := ((begin + end_) / 2) + ((begin + end_) % 2)
  match vecAt vec cur with
  | Res.error f => Res.error f
  | Res.ok p =>
    let rc := cmp s p
    if rc = 0 then
      Res.ok (EqStep.found cur)
    else if rc < 0 then
      Res.ok (EqStep.next begin (size_sub cur 1))
    else
      Res.ok (EqStep.next cur end_)

/-- The loop `while (begin < end) { ... }` of `rsb_eq_vec`: either the early
`return cur`, or the pair `(begin, end)` at loop exit. -/
def rsb_eq_loop {σ α : Type} (vec : List α) (s : σ) (cmp : rsbcompare σ α) :
    Nat → Nat → Nat → Res EqStep
  | fuel, begin, end_ =>
    if begin < end_ then
      match fuel with
      | 0 => Res.error Fault.fuel
      | fuel + 1 =>
        match rsb_eq_step vec s cmp begin end_ with
        | Res.error f => Res.error f
        | Res.ok (EqStep.found cur) => Res.ok (EqStep.found cur)
        | Res.ok (EqStep.next b e) => rsb_eq_loop vec s cmp fuel b e
    else
      Res.ok (EqStep.next begin end_)

/-- The function `rsb_eq_vec(vec, s, cmp)`. -/
def rsb_eq_vec {σ α : Type} (vec : List α) (s : σ) (cmp : rsbcompare σ α) : Res Int :=
  match rsb_eq_loop vec s cmp (vec.length + 1) 0 (size_sub vec.length 1) with
  | Res.error f => Res.error f
  | Res.ok (EqStep.found cur) => Res.ok (cur : Int)
  | Res.ok (EqStep.next begin end_) =>
    if begin ≠ end_ then
      Res.error Fault.assertion
    else
      match vecAt vec begin with
      | Res.error f => Res.error f
      | Res.ok p => if cmp s p = 0 then Res.ok (begin : Int) else Res.ok (-1)

/-- The comparator of integer keys, `cmp(t, e) = sign(t - e)`. -/
def intCmp : rsbcompare Int Int := fun t e => Int.sign (t - e)

/-- The comparator that answers `1` wherever `cmp` answers `0` and agrees with
`cmp` elsewhere. -/
def zeroAsPositive {σ α : Type} (cmp : rsbcompare σ α) : rsbcompare σ α :=
  fun s e => if cmp s e = 0 then 1 else cmp s e

/-- Floor midpoint `(begin + end) / 2` of `rsb_gt_vec`. -/
def floorMid (begin end_ : Nat) : Nat := (begin + end_) / 2

/-- Ceiling midpoint `((begin + end) / 2) + ((begin + end) % 2)` of `rsb_lt_vec`
and `rsb_eq_vec`. -/
def ceilMid (begin end_ : Nat) : Nat := ((begin + end_) / 2) + ((begin + end_) % 2)

/-- A loop body narrows on `[0, n)`: from every state `begin < end < n` it
yields a state `begin' ≤ end'` inside the old interval whose width
`end' - begin'` is strictly smaller. -/
def Narrows (step : Nat → Nat → Res (Nat × Nat)) (n : Nat) : Prop :=
  ∀ begin end_ : Nat, begin < end_ → end_ < n →
    ∃ b e, step begin end_ = Res.ok (b, e) ∧
      b ≤ e ∧ e - b < end_ - begin ∧ begin ≤ b ∧ e ≤ end_

/-- The loop body of `rsb_eq_vec` narrows on `[0, n)` or returns. -/
def NarrowsOrReturns (step : Nat → Nat → Res EqStep) (n : Nat) : Prop :=
  ∀ begin end_ : Nat, begin < end_ → end_ < n →
    (∃ cur, step begin end_ = Res.ok (EqStep.found cur)) ∨
    ∃ b e, step begin end_ = Res.ok (EqStep.next b e) ∧
      b ≤ e ∧ e - b < end_ - begin ∧ begin ≤ b ∧ e ≤ end_

/-- A loop converges on `[0, n)`: started in a state `begin ≤ end < n` with at
least `end - begin` units of fuel, it exits in a state with `begin = end`. -/
def Exits (loop : Nat → Nat → Nat → Res (Nat × Nat)) (n : Nat) : Prop :=
  ∀ fuel begin end_ : Nat, begin ≤ end_ → end_ < n → end_ - begin ≤ fuel →
    ∃ b, loop fuel begin end_ = Res.ok (b, b)

/-- The loop of `rsb_eq_vec` converges on `[0, n)`: as `Exits`, or it returns
an index from inside the loop. -/
def ExitsOrReturns (loop : Nat → Nat → Nat → Res EqStep) (n : Nat) : Prop :=
  ∀ fuel begin end_ : Nat, begin ≤ end_ → end_ < n → end_ - begin ≤ fuel →
    (∃ cur, loop fuel begin end_ = Res.ok (EqStep.found cur)) ∨
    ∃ b, loop fuel begin end_ = Res.ok (EqStep.next b b)

/-! ## `src/trie/rune_util.h`

The state of a `Runes` object is its four scalar members.  The contents of the
rune arrays are not part of the state: `memcpy` and the write of the terminator
leave the four members unchanged.  The `size_t` members are natural numbers,
and the sums and products of `setup_storage` and `append` are taken modulo
`2^64` (`size_add`, `size_mul`), as `size_t` arithmetic is. -/

/-- The constant `#define RUNE_STATIC_ALLOC_SIZE 127`. -/
def RUNE_STATIC_ALLOC_SIZE : Nat := 127

/-- The value `sizeof(rune)` in bytes: `rune` is `uint16_t` unless
`TRIE_32BIT_RUNES` is defined. -/
def sizeof_rune : Nat := 2

/-- What the member `rune *_runes` points to. -/
inductive RunePtr where
  /-- The null pointer. -/
  | null
  /-- The inline array `rune _runes_s[RUNE_STATIC_ALLOC_SIZE + 1]` of the object. -/
  | runes_s
  /-- A block of `bytes` bytes returned by `rm_malloc(bytes)`. -/
  | heap (bytes : Nat)
  deriving DecidableEq, Repr

/-- The members of `struct Runes`. -/
structure Runes where
  _dynamic : Bool
  _runes : RunePtr
  _len : Nat
  _nbytes : Nat
  deriving DecidableEq, Repr

namespace Runes

/-- Number of code units (runes) in the storage `_runes` designates: the inline
array has `RUNE_STATIC_ALLOC_SIZE + 1` of them, a heap block of `bytes` bytes
has `bytes / sizeof(rune)`. -/
def storage_units (r : Runes) : Nat :=
  match r._runes with
  | RunePtr.null => 0
  | RunePtr.runes_s => RUNE_STATIC_ALLOC_SIZE + 1
  | RunePtr.heap bytes => bytes / sizeof_rune

/-- The method `void setup_storage(size_t nbytes)`. -/
def setup_storage (self : Runes) (nbytes : Nat) : Runes :=
  let _dynamic := decide (nbytes > RUNE_STATIC_ALLOC_SIZE)
  let _nbytes := size_add nbytes 1
  if _dynamic then
    { self with _dynamic := _dynamic, _nbytes := _nbytes,
                _runes := RunePtr.heap (size_mul _nbytes sizeof_rune) }
  else
    { self with _dynamic := _dynamic, _nbytes := _nbytes, _runes := RunePtr.runes_s }

/-- The method `void append(const Runes &runes)`. -/
def append (self : Runes) (runes : Runes) : Runes :=
  let nbytes := size_add self._nbytes runes._nbytes
  if !self._dynamic && decide (nbytes > RUNE_STATIC_ALLOC_SIZE) then
    { self with _runes := RunePtr.heap (size_add nbytes 1), _dynamic := true }
  else
    self

/-- The method `void copy(const Runes &runes)`, which the copy constructor
`Runes(const Runes &runes)` runs on the object under construction `self`. -/
def copy (self : Runes) (runes : Runes) : Runes :=
  let self := self.setup_storage runes._nbytes
  { self with _len := runes._len }

/-- The method `size_t len() const`. -/
def len (self : Runes) : Nat := self._len

/-- The method `size_t nbytes() const`. -/
def nbytes (self : Runes) : Nat := self._nbytes

/-- The method `bool empty() const`, `!_runes || !_len`. -/
def empty (self : Runes) : Bool :=
  decide (self._runes = RunePtr.null) || decide (self._len = 0)

/-- Index of the write `_runes[_nbytes] = 0` in `copy(const Runes &runes)`: the
value of `_nbytes` after the call `setup_storage(runes._nbytes)`. -/
def copy_terminator_index (self : Runes) (runes : Runes) : Nat :=
  (self.setup_storage runes._nbytes)._nbytes

/-- Number of code units of the storage `copy(const Runes &runes)` writes
into: the storage chosen by the call `setup_storage(runes._nbytes)`. -/
def copy_storage_units (self : Runes) (runes : Runes) : Nat :=
  (self.setup_storage runes._nbytes).storage_units

/-- What a call `strToRunes(str, &len, dynamic, buf)` or
`strToFoldedRunes(str, &len, dynamic, buf)` yields: the pointer it returns and
the number of runes it stores through `len`. -/
structure Decoded where
  runes : RunePtr
  len : Nat
  deriving DecidableEq, Repr

/-- A decoder with the signature of `strToRunes` and `strToFoldedRunes`, which
`rune_util.h` declares and does not define: from the bytes of `str` and the
argument `dynamic` (the argument `buf` is always `_runes_s`). -/
abbrev StrDecoder := List Nat → Bool → Decoded

/-- The method `void copy(const char *str, size_t str_len)`. -/
def copy_str (strToRunes : StrDecoder) (self : Runes) (str : List Nat) (str_len : Nat) :
    Runes :=
  let d := strToRunes str self._dynamic
  { self with _runes := d.runes, _nbytes := d.len, _len := str_len }

/-- The constructor `Runes(const char *str, size_t len)`, on the object under
construction `self`. -/
def construct_len (strToRunes : StrDecoder) (self : Runes) (str : List Nat) (len : Nat) :
    Runes :=
  self.copy_str strToRunes str len

/-- The type `enum class Folded`. -/
inductive Folded where
  | No
  | Yes
  deriving DecidableEq, Repr

/-- The constructor `Runes(const char *str, Folded folded)`, on the object under
construction `self`. -/
def construct (strToRunes strToFoldedRunes : StrDecoder) (self : Runes) (str : List Nat)
    (folded : Folded) : Runes :=
  if folded = Folded.No then
    let d := strToRunes str self._dynamic
    { self with _runes := d.runes, _len := d.len }
  else
    let d := strToFoldedRunes str self._dynamic
    { self with _runes := d.runes, _len := d.len }

end Runes

/-- Modelled from the spec: the number of runes `strToRunes` reports for a
UTF-8 string, one rune per decoded code point, that is the number of bytes that
are not continuation bytes `10xxxxxx`. -/
def utf8RuneCount (str : List Nat) : Nat :=
  (str.filter (fun b => decide (b / 64 ≠ 2))).length

/-- Modelled from the spec: the function `strToRunes`, which `rune_util.h`
declares and does not define.  It decodes `str` as UTF-8 into runes, one per
code point, and reports their number; storage is inline if that number plus one
terminator fits within the inline capacity, and otherwise a heap block sized to
the needed length plus terminator. -/
def strToRunes : Runes.StrDecoder := fun str _dynamic =>
  let n := utf8RuneCount str
  if n + 1 ≤ RUNE_STATIC_ALLOC_SIZE then
    { runes := RunePtr.runes_s, len := n }
  else
    { runes := RunePtr.heap ((n + 1) * sizeof_rune), len := n }

/-! ## `src/field_spec.h` -/

/-- The type `enum FieldType`: a set of type bits. -/
abbrev FieldType := Nat

def INDEXFLD_T_UNTYPED : FieldType := 0x00
def INDEXFLD_T_FULLTEXT : FieldType := 0x01
def INDEXFLD_T_NUMERIC : FieldType := 0x02
def INDEXFLD_T_GEO : FieldType := 0x04
def INDEXFLD_T_TAG : FieldType := 0x08

/-- The constant `#define INDEXFLD_NUM_TYPES 4`. -/
def INDEXFLD_NUM_TYPES : Nat := 4

/-- The macro `INDEXTYPE_TO_POS(T)`. -/
def INDEXTYPE_TO_POS (T : FieldType) : Int :=
  if T = INDEXFLD_T_FULLTEXT then 0
  else if T = INDEXFLD_T_NUMERIC then 1
  else if T = INDEXFLD_T_GEO then 2
  else if T = INDEXFLD_T_TAG then 3
  else -1

/-- The macro `INDEXTYPE_FROM_POS(P)`, that is `(1<<(P))` on `int`: defined for
a shift count `0 ≤ P < 31`, undefined (`none`) otherwise. -/
def INDEXTYPE_FROM_POS (P : Int) : Option FieldType :=
  if 0 ≤ P ∧ P < 31 then some (1 <<< P.toNat) else none

/-- Modelled from the spec: the enumeration `RSValueType` of `value.h`, which is
not among the sources; the three comparable-value kinds the mapping uses, the
numeric kind, the string kind and "not orderable". -/
inductive RSValueType where
  | RSValue_Number
  | RSValue_String
  | RSValue_Null
  deriving DecidableEq, Repr

/-- The function `RSValueType fieldTypeToValueType(FieldType ft)`: a `switch`
over `ft`. -/
def fieldTypeToValueType (ft : FieldType) : RSValueType :=
  if ft = INDEXFLD_T_NUMERIC then
    RSValueType.RSValue_Number
  else if ft = INDEXFLD_T_FULLTEXT then
    RSValueType.RSValue_String
  else if ft = INDEXFLD_T_TAG then
    RSValueType.RSValue_String
  else if ft = INDEXFLD_T_GEO then
    RSValueType.RSValue_Null
  else
    RSValueType.RSValue_Null

end RediSearch

namespace RediSearch

/-! ## Basic facts -/

theorem size_sub_one {a : Nat} (h : 1 ≤ a) : size_sub a 1 = a - 1 := by
  unfold size_sub
  rw [if_pos h]

theorem vecAt_of_lt {α : Type} (vec : List α) (i : Nat) (h : i < vec.length) :
    vecAt vec i = Res.ok vec[i] := by
  unfold vecAt
  rw [List.get?_eq_get h]
  rfl

theorem intCmp_eq_zero (t e : Int) : intCmp t e = 0 ↔ t = e := by
  unfold intCmp
  rw [Int.sign_eq_zero_iff_zero]
  omega

theorem intCmp_neg (t e : Int) : intCmp t e < 0 ↔ t < e := by
  unfold intCmp
  rcases lt_trichotomy (t - e) 0 with h | h | h
  · rw [Int.sign_eq_neg_one_of_neg h]
    constructor <;> intro <;> omega
  · rw [h, Int.sign_zero]
    constructor <;> intro <;> omega
  · rw [Int.sign_eq_one_of_pos h]
    constructor <;> intro <;> omega

theorem intCmp_pos (t e : Int) : 0 < intCmp t e ↔ e < t := by
  unfold intCmp
  rcases lt_trichotomy (t - e) 0 with h | h | h
  · rw [Int.sign_eq_neg_one_of_neg h]
    constructor <;> intro <;> omega
  · rw [h, Int.sign_zero]
    constructor <;> intro <;> omega
  · rw [Int.sign_eq_one_of_pos h]
    constructor <;> intro <;> omega

theorem floorMid_bounds {begin end_ : Nat} (h : begin < end_) :
    begin ≤ floorMid begin end_ ∧ floorMid begin end_ < end_ := by
  unfold floorMid
  omega

theorem ceilMid_bounds {begin end_ : Nat} (h : begin < end_) :
    begin < ceilMid begin end_ ∧ ceilMid begin end_ ≤ end_ := by
  unfold ceilMid
  omega

/-! ## The loop bodies, case by case -/

theorem rsb_gt_step_cases {σ α : Type} (vec : List α) (s : σ) (cmp : rsbcompare σ α)
    (begin end_ : Nat) (h : floorMid begin end_ < vec.length) :
    (0 ≤ cmp s vec[floorMid begin end_] ∧
      rsb_gt_step vec s cmp begin end_ = Res.ok (floorMid begin end_ + 1, end_)) ∨
    (cmp s vec[floorMid begin end_] < 0 ∧
      rsb_gt_step vec s cmp begin end_ = Res.ok (begin, floorMid begin end_)) := by
  have hv : vecAt vec ((begin + end_) / 2) = Res.ok vec[floorMid begin end_] :=
    vecAt_of_lt vec _ h
  unfold rsb_gt_step
  simp only [hv]
  generalize cmp s vec[floorMid begin end_] = rc
  by_cases h0 : rc = 0
  · left
    simp [h0, floorMid]
  · by_cases h1 : rc < 0
    · right
      simp [h0, h1, floorMid]
    · left
      simp [h0, h1, floorMid]
      omega

theorem rsb_lt_step_cases {σ α : Type} (vec : List α) (s : σ) (cmp : rsbcompare σ α)
    (begin end_ : Nat) (h : ceilMid begin end_ < vec.length) :
    (cmp s vec[ceilMid begin end_] ≤ 0 ∧
      rsb_lt_step vec s cmp begin end_ = Res.ok (begin, size_sub (ceilMid begin end_) 1)) ∨
    (0 < cmp s vec[ceilMid begin end_] ∧
      rsb_lt_step vec s cmp begin end_ = Res.ok (ceilMid begin end_, end_)) := by
  have hv : vecAt vec ((begin + end_) / 2 + (begin + end_) % 2)
      = Res.ok vec[ceilMid begin end_] := vecAt_of_lt vec _ h
  unfold rsb_lt_step
  simp only [hv]
  generalize cmp s vec[ceilMid begin end_] = rc
  by_cases h0 : rc = 0
  · left
    simp [h0, ceilMid]
  · by_cases h1 : rc < 0
    · left
      simp [h0, h1, ceilMid]
      omega
    · right
      simp [h0, h1, ceilMid]
      omega

theorem rsb_eq_step_cases {σ α : Type} (vec : List α) (s : σ) (cmp : rsbcompare σ α)
    (begin end_ : Nat) (h : ceilMid begin end_ < vec.length) :
    (cmp s vec[ceilMid begin end_] = 0 ∧
      rsb_eq_step vec s cmp begin end_ = Res.ok (EqStep.found (ceilMid begin end_))) ∨
    (cmp s vec[ceilMid begin end_] < 0 ∧
      rsb_eq_step vec s cmp begin end_ =
        Res.ok (EqStep.next begin (size_sub (ceilMid begin end_) 1))) ∨
    (0 < cmp s vec[ceilMid begin end_] ∧
      rsb_eq_step vec s cmp begin end_ = Res.ok (EqStep.next (ceilMid begin end_) end_)) := by
  have hv : vecAt vec ((begin + end_) / 2 + (begin + end_) % 2)
      = Res.ok vec[ceilMid begin end_] := vecAt_of_lt vec _ h
  unfold rsb_eq_step
  simp only [hv]
  generalize cmp s vec[ceilMid begin end_] = rc
  by_cases h0 : rc = 0
  · left
    simp [h0, ceilMid]
  · by_cases h1 : rc < 0
    · right; left
      simp [h0, h1, ceilMid]
    · right; right
      simp [h0, h1, ceilMid]
      omega

/-! ## Narrowing and convergence, for an arbitrary comparator -/

theorem rsb_gt_step_narrows {σ α : Type} (vec : List α) (s : σ) (cmp : rsbcompare σ α) :
    Narrows (rsb_gt_step vec s cmp) vec.length := by
  intro begin end_ hlt hn
  have hb := floorMid_bounds hlt
  have h : floorMid begin end_ < vec.length := by omega
  rcases rsb_gt_step_cases vec s cmp begin end_ h with ⟨_, he⟩ | ⟨_, he⟩
  · exact ⟨_, _, he, by omega, by omega, by omega, le_refl _⟩
  · exact ⟨_, _, he, by omega, by omega, le_refl _, by omega⟩

theorem rsb_lt_step_narrows {σ α : Type} (vec : List α) (s : σ) (cmp : rsbcompare σ α) :
    Narrows (rsb_lt_step vec s cmp) vec.length := by
  intro begin end_ hlt hn
  have hb := ceilMid_bounds hlt
  have h : ceilMid begin end_ < vec.length := by omega
  have hsub : size_sub (ceilMid begin end_) 1 = ceilMid begin end_ - 1 :=
    size_sub_one (by omega)
  rcases rsb_lt_step_cases vec s cmp begin end_ h with ⟨_, he⟩ | ⟨_, he⟩
  · rw [hsub] at he
    exact ⟨_, _, he, by omega, by omega, le_refl _, by omega⟩
  · exact ⟨_, _, he, by omega, by omega, by omega, le_refl _⟩

theorem rsb_eq_step_narrows {σ α : Type} (vec : List α) (s : σ) (cmp : rsbcompare σ α) :
    NarrowsOrReturns (rsb_eq_step vec s cmp) vec.length := by
  intro begin end_ hlt hn
  have hb := ceilMid_bounds hlt
  have h : ceilMid begin end_ < vec.length := by omega
  have hsub : size_sub (ceilMid begin end_) 1 = ceilMid begin end_ - 1 :=
    size_sub_one (by omega)
  rcases rsb_eq_step_cases vec s cmp begin end_ h with ⟨_, he⟩ | ⟨_, he⟩ | ⟨_, he⟩
  · exact Or.inl ⟨_, he⟩
  · rw [hsub] at he
    exact Or.inr ⟨_, _, he, by omega, by omega, le_refl _, by omega⟩
  · exact Or.inr ⟨_, _, he, by omega, by omega, by omega, le_refl _⟩

theorem rsb_gt_loop_done {σ α : Type} (vec : List α) (s : σ) (cmp : rsbcompare σ α)
    (fuel begin end_ : Nat) (h : ¬ begin < end_) :
    rsb_gt_loop vec s cmp fuel begin end_ = Res.ok (begin, end_) := by
  unfold rsb_gt_loop
  rw [if_neg h]

theorem rsb_gt_loop_succ {σ α : Type} (vec : List α) (s : σ) (cmp : rsbcompare σ α)
    (fuel begin end_ b e : Nat) (h : begin < end_)
    (hstep : rsb_gt_step vec s cmp begin end_ = Res.ok (b, e)) :
    rsb_gt_loop vec s cmp (fuel + 1) begin end_ = rsb_gt_loop vec s cmp fuel b e := by
  rw [rsb_gt_loop, if_pos h]
  simp only [hstep]

theorem rsb_lt_loop_done {σ α : Type} (vec : List α) (s : σ) (cmp : rsbcompare σ α)
    (fuel begin end_ : Nat) (h : ¬ begin < end_) :
    rsb_lt_loop vec s cmp fuel begin end_ = Res.ok (begin, end_) := by
  unfold rsb_lt_loop
  rw [if_neg h]

theorem rsb_lt_loop_succ {σ α : Type} (vec : List α) (s : σ) (cmp : rsbcompare σ α)
    (fuel begin end_ b e : Nat) (h : begin < end_)
    (hstep : rsb_lt_step vec s cmp begin end_ = Res.ok (b, e)) :
    rsb_lt_loop vec s cmp (fuel + 1) begin end_ = rsb_lt_loop vec s cmp fuel b e := by
  rw [rsb_lt_loop, if_pos h]
  simp only [hstep]

theorem rsb_eq_loop_done {σ α : Type} (vec : List α) (s : σ) (cmp : rsbcompare σ α)
    (fuel begin end_ : Nat) (h : ¬ begin < end_) :
    rsb_eq_loop vec s cmp fuel begin end_ = Res.ok (EqStep.next begin end_) := by
  unfold rsb_eq_loop
  rw [if_neg h]

theorem rsb_eq_loop_succ {σ α : Type} (vec : List α) (s : σ) (cmp : rsbcompare σ α)
    (fuel begin end_ b e : Nat) (h : begin < end_)
    (hstep : rsb_eq_step vec s cmp begin end_ = Res.ok (EqStep.next b e)) :
    rsb_eq_loop vec s cmp (fuel + 1) begin end_ = rsb_eq_loop vec s cmp fuel b e := by
  rw [rsb_eq_loop, if_pos h]
  simp only [hstep]

theorem rsb_eq_loop_found {σ α : Type} (vec : List α) (s : σ) (cmp : rsbcompare σ α)
    (fuel begin end_ cur : Nat) (h : begin < end_)
    (hstep : rsb_eq_step vec s cmp begin end_ = Res.ok (EqStep.found cur)) :
    rsb_eq_loop vec s cmp (fuel + 1) begin end_ = Res.ok (EqStep.found cur) := by
  rw [rsb_eq_loop, if_pos h]
  simp only [hstep]

/-- A loop of a narrowing body exits with `begin = end` inside the interval it
started from, when the fuel is at least the width of that interval. -/
theorem rsb_gt_loop_exits {σ α : Type} (vec : List α) (s : σ) (cmp : rsbcompare σ α) :
    ∀ fuel begin end_ : Nat, begin ≤ end_ → end_ < vec.length → end_ - begin ≤ fuel →
      ∃ b, rsb_gt_loop vec s cmp fuel begin end_ = Res.ok (b, b) ∧ begin ≤ b ∧ b ≤ end_ := by
  intro fuel
  induction fuel with
  | zero =>
    intro begin end_ hle _ hf
    have heq : begin = end_ := by omega
    subst heq
    exact ⟨begin, rsb_gt_loop_done vec s cmp 0 begin begin (lt_irrefl _), le_refl _, le_refl _⟩
  | succ k ih =>
    intro begin end_ hle hn hf
    by_cases hlt : begin < end_
    · obtain ⟨b, e, hstep, hbe, hw, hb, he⟩ := rsb_gt_step_narrows vec s cmp begin end_ hlt hn
      obtain ⟨r, hr, h1, h2⟩ := ih b e hbe (by omega) (by omega)
      exact ⟨r, by rw [rsb_gt_loop_succ vec s cmp k begin end_ b e hlt hstep, hr],
        by omega, by omega⟩
    · have heq : begin = end_ := by omega
      subst heq
      exact ⟨begin, rsb_gt_loop_done vec s cmp _ begin begin hlt, le_refl _, le_refl _⟩

theorem rsb_lt_loop_exits {σ α : Type} (vec : List α) (s : σ) (cmp : rsbcompare σ α) :
    ∀ fuel begin end_ : Nat, begin ≤ end_ → end_ < vec.length → end_ - begin ≤ fuel →
      ∃ b, rsb_lt_loop vec s cmp fuel begin end_ = Res.ok (b, b) ∧ begin ≤ b ∧ b ≤ end_ := by
  intro fuel
  induction fuel with
  | zero =>
    intro begin end_ hle _ hf
    have heq : begin = end_ := by omega
    subst heq
    exact ⟨begin, rsb_lt_loop_done vec s cmp 0 begin begin (lt_irrefl _), le_refl _, le_refl _⟩
  | succ k ih =>
    intro begin end_ hle hn hf
    by_cases hlt : begin < end_
    · obtain ⟨b, e, hstep, hbe, hw, hb, he⟩ := rsb_lt_step_narrows vec s cmp begin end_ hlt hn
      obtain ⟨r, hr, h1, h2⟩ := ih b e hbe (by omega) (by omega)
      exact ⟨r, by rw [rsb_lt_loop_succ vec s cmp k begin end_ b e hlt hstep, hr],
        by omega, by omega⟩
    · have heq : begin = end_ := by omega
      subst heq
      exact ⟨begin, rsb_lt_loop_done vec s cmp _ begin begin hlt, le_refl _, le_refl _⟩

theorem rsb_eq_loop_exits {σ α : Type} (vec : List α) (s : σ) (cmp : rsbcompare σ α) :
    ∀ fuel begin end_ : Nat, begin ≤ end_ → end_ < vec.length → end_ - begin ≤ fuel →
      (∃ cur, rsb_eq_loop vec s cmp fuel begin end_ = Res.ok (EqStep.found cur) ∧
        begin ≤ cur ∧ cur ≤ end_ ∧ ∀ hc : cur < vec.length, cmp s vec[cur] = 0) ∨
      ∃ b, rsb_eq_loop vec s cmp fuel begin end_ = Res.ok (EqStep.next b b) ∧
        begin ≤ b ∧ b ≤ end_ := by
  intro fuel
  induction fuel with
  | zero =>
    intro begin end_ hle _ hf
    have heq : begin = end_ := by omega
    subst heq
    exact Or.inr
      ⟨begin, rsb_eq_loop_done vec s cmp 0 begin begin (lt_irrefl _), le_refl _, le_refl _⟩
  | succ k ih =>
    intro begin end_ hle hn hf
    by_cases hlt : begin < end_
    · have hb := ceilMid_bounds hlt
      have h : ceilMid begin end_ < vec.length := by omega
      have hsub : size_sub (ceilMid begin end_) 1 = ceilMid begin end_ - 1 :=
        size_sub_one (by omega)
      rcases rsb_eq_step_cases vec s cmp begin end_ h with ⟨h0, he⟩ | ⟨_, he⟩ | ⟨_, he⟩
      · exact Or.inl ⟨_, rsb_eq_loop_found vec s cmp k begin end_ _ hlt he,
          by omega, by omega, fun _ => h0⟩
      · rw [rsb_eq_loop_succ vec s cmp k begin end_ _ _ hlt he, hsub]
        rcases ih begin (ceilMid begin end_ - 1) (by omega) (by omega) (by omega) with
          ⟨c, hc, h1, h2, h3⟩ | ⟨r, hr, h1, h2⟩
        · exact Or.inl ⟨c, hc, by omega, by omega, h3⟩
        · exact Or.inr ⟨r, hr, by omega, by omega⟩
      · rw [rsb_eq_loop_succ vec s cmp k begin end_ _ _ hlt he]
        rcases ih (ceilMid begin end_) end_ (by omega) (by omega) (by omega) with
          ⟨c, hc, h1, h2, h3⟩ | ⟨r, hr, h1, h2⟩
        · exact Or.inl ⟨c, hc, by omega, by omega, h3⟩
        · exact Or.inr ⟨r, hr, by omega, by omega⟩
    · have heq : begin = end_ := by omega
      subst heq
      exact Or.inr
        ⟨begin, rsb_eq_loop_done vec s cmp _ begin begin hlt, le_refl _, le_refl _⟩

/-! ## What the loops compute, for a comparator that is monotone along the vector -/

/-- Loop of `rsb_gt_vec`: when the elements with `cmp(s, e) ≥ 0` form an initial
segment of the vector, the loop exits at a position `b` such that every element
of `[begin, b)` has `cmp ≥ 0` and, unless `b = end`, the element at `b` has
`cmp < 0`. -/
theorem rsb_gt_loop_spec {σ α : Type} (vec : List α) (s : σ) (cmp : rsbcompare σ α)
    (hmono : ∀ (i j : Nat) (hi : i < vec.length) (hj : j < vec.length), i ≤ j →
      0 ≤ cmp s vec[j] → 0 ≤ cmp s vec[i]) :
    ∀ fuel begin end_ : Nat, begin ≤ end_ → end_ < vec.length → end_ - begin ≤ fuel →
      ∃ b, rsb_gt_loop vec s cmp fuel begin end_ = Res.ok (b, b) ∧ begin ≤ b ∧ b ≤ end_ ∧
        (∀ (i : Nat) (hi : i < vec.length), begin ≤ i → i < b → 0 ≤ cmp s vec[i]) ∧
        (∀ hb : b < vec.length, b < end_ → cmp s vec[b] < 0) := by
  intro fuel
  induction fuel with
  | zero =>
    intro begin end_ hle _ hf
    have heq : begin = end_ := by omega
    subst heq
    exact ⟨begin, rsb_gt_loop_done vec s cmp 0 begin begin (lt_irrefl _), le_refl _, le_refl _,
      fun i _ h1 h2 => absurd h2 (by omega), fun _ h => absurd h (lt_irrefl _)⟩
  | succ k ih =>
    intro begin end_ hle hn hf
    by_cases hlt : begin < end_
    · have hb := floorMid_bounds hlt
      have h : floorMid begin end_ < vec.length := by omega
      rcases rsb_gt_step_cases vec s cmp begin end_ h with ⟨hc, he⟩ | ⟨hc, he⟩
      · obtain ⟨r, hr, h1, h2, h3, h4⟩ :=
          ih (floorMid begin end_ + 1) end_ (by omega) hn (by omega)
        refine ⟨r, by rw [rsb_gt_loop_succ vec s cmp k begin end_ _ _ hlt he, hr],
          by omega, h2, ?_, h4⟩
        intro i hi hbi hir
        by_cases hic : i ≤ floorMid begin end_
        · exact hmono i (floorMid begin end_) hi h hic hc
        · exact h3 i hi (by omega) hir
      · obtain ⟨r, hr, h1, h2, h3, h4⟩ :=
          ih begin (floorMid begin end_) (by omega) h (by omega)
        refine ⟨r, by rw [rsb_gt_loop_succ vec s cmp k begin end_ _ _ hlt he, hr],
          h1, by omega, h3, ?_⟩
        intro hr' hre
        by_cases hrc : r < floorMid begin end_
        · exact h4 hr' hrc
        · have hrc' : r = floorMid begin end_ := by omega
          subst hrc'
          exact hc
    · have heq : begin = end_ := by omega
      subst heq
      exact ⟨begin, rsb_gt_loop_done vec s cmp _ begin begin hlt, le_refl _, le_refl _,
        fun i _ h1 h2 => absurd h2 (by omega), fun _ h => absurd h (lt_irrefl _)⟩

/-- Loop of `rsb_lt_vec`: when the elements with `cmp(s, e) > 0` form an initial
segment of the vector, the loop exits at a position `b` such that every element
of `(b, end]` has `cmp ≤ 0` and, unless `b = begin`, the element at `b` has
`cmp > 0`. -/
theorem rsb_lt_loop_spec {σ α : Type} (vec : List α) (s : σ) (cmp : rsbcompare σ α)
    (hmono : ∀ (i j : Nat) (hi : i < vec.length) (hj : j < vec.length), i ≤ j →
      0 < cmp s vec[j] → 0 < cmp s vec[i]) :
    ∀ fuel begin end_ : Nat, begin ≤ end_ → end_ < vec.length → end_ - begin ≤ fuel →
      ∃ b, rsb_lt_loop vec s cmp fuel begin end_ = Res.ok (b, b) ∧ begin ≤ b ∧ b ≤ end_ ∧
        (∀ (i : Nat) (hi : i < vec.length), b < i → i ≤ end_ → cmp s vec[i] ≤ 0) ∧
        (∀ hb : b < vec.length, begin < b → 0 < cmp s vec[b]) := by
  intro fuel
  induction fuel with
  | zero =>
    intro begin end_ hle _ hf
    have heq : begin = end_ := by omega
    subst heq
    exact ⟨begin, rsb_lt_loop_done vec s cmp 0 begin begin (lt_irrefl _), le_refl _, le_refl _,
      fun i _ h1 h2 => absurd h2 (by omega), fun _ h => absurd h (lt_irrefl _)⟩
  | succ k ih =>
    intro begin end_ hle hn hf
    by_cases hlt : begin < end_
    · have hb := ceilMid_bounds hlt
      have h : ceilMid begin end_ < vec.length := by omega
      have hsub : size_sub (ceilMid begin end_) 1 = ceilMid begin end_ - 1 :=
        size_sub_one (by omega)
      rcases rsb_lt_step_cases vec s cmp begin end_ h with ⟨hc, he⟩ | ⟨hc, he⟩
      · rw [hsub] at he
        obtain ⟨r, hr, h1, h2, h3, h4⟩ :=
          ih begin (ceilMid begin end_ - 1) (by omega) (by omega) (by omega)
        refine ⟨r, by rw [rsb_lt_loop_succ vec s cmp k begin end_ _ _ hlt he, hr],
          h1, by omega, ?_, h4⟩
        intro i hi hri hie
        by_cases hic : i ≤ ceilMid begin end_ - 1
        · exact h3 i hi hri hic
        · by_contra hpos
          have hp := hmono (ceilMid begin end_) i h hi (by omega) (by omega)
          omega
      · obtain ⟨r, hr, h1, h2, h3, h4⟩ :=
          ih (ceilMid begin end_) end_ (by omega) hn (by omega)
        refine ⟨r, by rw [rsb_lt_loop_succ vec s cmp k begin end_ _ _ hlt he, hr],
          by omega, h2, h3, ?_⟩
        intro hr' hbr
        by_cases hrc : ceilMid begin end_ < r
        · exact h4 hr' hrc
        · have hrc' : r = ceilMid begin end_ := by omega
          subst hrc'
          exact hc
    · have heq : begin = end_ := by omega
      subst heq
      exact ⟨begin, rsb_lt_loop_done vec s cmp _ begin begin hlt, le_refl _, le_refl _,
        fun i _ h1 h2 => absurd h2 (by omega), fun _ h => absurd h (lt_irrefl _)⟩

/-! ## The entry points, from the exit state of their loop -/

theorem rsb_gt_vec_of_loop {σ α : Type} (vec : List α) (s : σ) (cmp : rsbcompare σ α)
    (b : Nat) (hb : b < vec.length)
    (hloop : rsb_gt_loop vec s cmp (vec.length + 1) 0 (size_sub vec.length 1) = Res.ok (b, b)) :
    rsb_gt_vec vec s cmp =
      if b ≠ size_sub vec.length 1 then Res.ok (b : Int)
      else if cmp s vec[b] ≥ 0 then Res.ok ((b : Int) + 1) else Res.ok (b : Int) := by
  unfold rsb_gt_vec
  simp only [hloop, vecAt_of_lt vec b hb, ne_eq, not_true_eq_false, if_false]

theorem rsb_lt_vec_of_loop {σ α : Type} (vec : List α) (s : σ) (cmp : rsbcompare σ α)
    (b : Nat) (hb : b < vec.length)
    (hloop : rsb_lt_loop vec s cmp (vec.length + 1) 0 (size_sub vec.length 1) = Res.ok (b, b)) :
    rsb_lt_vec vec s cmp =
      if b ≠ 0 then Res.ok (b : Int)
      else if cmp s vec[b] ≤ 0 then Res.ok ((b : Int) - 1) else Res.ok (b : Int) := by
  unfold rsb_lt_vec
  simp only [hloop, vecAt_of_lt vec b hb, ne_eq, not_true_eq_false, if_false]

theorem rsb_eq_vec_of_loop {σ α : Type} (vec : List α) (s : σ) (cmp : rsbcompare σ α)
    (b : Nat) (hb : b < vec.length)
    (hloop : rsb_eq_loop vec s cmp (vec.length + 1) 0 (size_sub vec.length 1)
      = Res.ok (EqStep.next b b)) :
    rsb_eq_vec vec s cmp = if cmp s vec[b] = 0 then Res.ok (b : Int) else Res.ok (-1) := by
  unfold rsb_eq_vec
  simp only [hloop, vecAt_of_lt vec b hb, ne_eq, not_true_eq_false, if_false]

theorem rsb_eq_vec_of_found {σ α : Type} (vec : List α) (s : σ) (cmp : rsbcompare σ α)
    (cur : Nat)
    (hloop : rsb_eq_loop vec s cmp (vec.length + 1) 0 (size_sub vec.length 1)
      = Res.ok (EqStep.found cur)) :
    rsb_eq_vec vec s cmp = Res.ok (cur : Int) := by
  unfold rsb_eq_vec
  simp only [hloop]

/-! ## Integer keys in strictly ascending order -/

theorem sorted_lt_getElem (a : List Int) (hs : a.Sorted (· < ·)) (i j : Nat)
    (hi : i < a.length) (hj : j < a.length) (hij : i < j) : a[i] < a[j] :=
  List.pairwise_iff_getElem.mp hs i j hi hj hij

theorem sorted_lt_index_lt (a : List Int) (hs : a.Sorted (· < ·)) (i j : Nat)
    (hi : i < a.length) (hj : j < a.length) (h : a[i] < a[j]) : i < j := by
  by_contra hij
  rcases Nat.eq_or_lt_of_le (Nat.le_of_not_lt hij) with heq | hlt
  · subst heq
    exact lt_irrefl _ h
  · have := sorted_lt_getElem a hs j i hj hi hlt
    omega

theorem sorted_lt_index_eq (a : List Int) (hs : a.Sorted (· < ·)) (i j : Nat)
    (hi : i < a.length) (hj : j < a.length) (h : a[i] = a[j]) : i = j := by
  rcases Nat.lt_trichotomy i j with hlt | heq | hgt
  · have := sorted_lt_getElem a hs i j hi hj hlt
    omega
  · exact heq
  · have := sorted_lt_getElem a hs j i hj hi hgt
    omega

/-- Loop of `rsb_eq_vec` on a strictly ascending vector that holds the target at
index `i`: it returns `i` early, or exits at `begin = end = i`. -/
theorem rsb_eq_loop_present (a : List Int) (t : Int) (hs : a.Sorted (· < ·))
    (i : Nat) (hi : i < a.length) (hit : a[i] = t) :
    ∀ fuel begin end_ : Nat, begin ≤ i → i ≤ end_ → end_ < a.length → end_ - begin ≤ fuel →
      rsb_eq_loop a t intCmp fuel begin end_ = Res.ok (EqStep.found i) ∨
      rsb_eq_loop a t intCmp fuel begin end_ = Res.ok (EqStep.next i i) := by
  intro fuel
  induction fuel with
  | zero =>
    intro begin end_ hbi hie _ hf
    have h1 : begin = i := by omega
    have h2 : end_ = i := by omega
    subst h1 h2
    exact Or.inr (rsb_eq_loop_done a t intCmp 0 _ _ (lt_irrefl _))
  | succ k ih =>
    intro begin end_ hbi hie hn hf
    by_cases hlt : begin < end_
    · have hb := ceilMid_bounds hlt
      have h : ceilMid begin end_ < a.length := by omega
      have hsub : size_sub (ceilMid begin end_) 1 = ceilMid begin end_ - 1 :=
        size_sub_one (by omega)
      rcases rsb_eq_step_cases a t intCmp begin end_ h with ⟨hc, he⟩ | ⟨hc, he⟩ | ⟨hc, he⟩
      · have hcur : i = ceilMid begin end_ :=
          sorted_lt_index_eq a hs i _ hi h (by rw [hit]; exact (intCmp_eq_zero _ _).mp hc)
        rw [← hcur] at he
        exact Or.inl (rsb_eq_loop_found a t intCmp k begin end_ i hlt he)
      · have hcur : i < ceilMid begin end_ :=
          sorted_lt_index_lt a hs i _ hi h (by rw [hit]; exact (intCmp_neg _ _).mp hc)
        rw [rsb_eq_loop_succ a t intCmp k begin end_ _ _ hlt he, hsub]
        exact ih begin (ceilMid begin end_ - 1) hbi (by omega) (by omega) (by omega)
      · have hcur : ceilMid begin end_ < i :=
          sorted_lt_index_lt a hs _ i h hi (by rw [hit]; exact (intCmp_pos _ _).mp hc)
        rw [rsb_eq_loop_succ a t intCmp k begin end_ _ _ hlt he]
        exact ih (ceilMid begin end_) end_ (by omega) hie hn (by omega)
    · have h1 : begin = i := by omega
      have h2 : end_ = i := by omega
      subst h1 h2
      exact Or.inr (rsb_eq_loop_done a t intCmp _ _ _ hlt)

/-! ## The searches on integer keys -/

/-- C1: on `[1, 3, 5, 7, 9]` with target `5` and the comparator `sign(t - e)`,
`rsb_gt_vec` returns `3`, the index of the first element strictly greater than
the target, whereas the smallest index whose element is `≥ 5`, the number of
elements strictly less than `5`, is `2`. -/
theorem rsb_gt_vec_on_match :
    rsb_gt_vec [1, 3, 5, 7, 9] (5 : Int) intCmp = Res.ok 3 ∧
    rsb_gt_vec [1, 3, 5, 7, 9] (5 : Int) intCmp ≠ Res.ok 2 ∧
    (List.filter (fun e : Int => decide (e < 5)) [1, 3, 5, 7, 9]).length = 2 := by
  decide

/-- C2: on `[1, 3, 5, 7, 9]` with target `5` and the comparator `sign(t - e)`,
`rsb_lt_vec` returns `1`, the index of the last element strictly less than the
target, whereas the largest index whose element is `≤ 5`, the number of elements
`≤ 5` minus one, is `2`. -/
theorem rsb_lt_vec_on_match :
    rsb_lt_vec [1, 3, 5, 7, 9] (5 : Int) intCmp = Res.ok 1 ∧
    rsb_lt_vec [1, 3, 5, 7, 9] (5 : Int) intCmp ≠ Res.ok 2 ∧
    ((List.filter (fun e : Int => decide (e ≤ 5)) [1, 3, 5, 7, 9]).length : Int) - 1 = 2 := by
  decide

/-- C3: `rsb_eq_vec` is an exact-match search.  For every strictly ascending
integer vector `a` of length at least 1 and every target `t`, with the
comparator `sign(t - e)`: if `t` is the element at index `i` then `rsb_eq_vec`
returns `i`, and if `t` does not occur in `a` it returns `-1`. -/
theorem rsb_eq_vec_exact (a : List Int) (t : Int) (hn : 1 ≤ a.length)
    (hs : a.Sorted (· < ·)) :
    (∀ (i : Nat) (hi : i < a.length), a[i] = t → rsb_eq_vec a t intCmp = Res.ok (i : Int)) ∧
    (t ∉ a → rsb_eq_vec a t intCmp = Res.ok (-1)) := by
  have hend : size_sub a.length 1 = a.length - 1 := size_sub_one hn
  constructor
  · intro i hi hit
    rcases rsb_eq_loop_present a t hs i hi hit (a.length + 1) 0 (a.length - 1)
        (Nat.zero_le _) (by omega) (by omega) (by omega) with h | h
    · exact rsb_eq_vec_of_found a t intCmp i (by rw [hend]; exact h)
    · rw [rsb_eq_vec_of_loop a t intCmp i hi (by rw [hend]; exact h)]
      rw [if_pos ((intCmp_eq_zero _ _).mpr hit.symm)]
  · intro hnot
    rcases rsb_eq_loop_exits a t intCmp (a.length + 1) 0 (a.length - 1)
        (Nat.zero_le _) (by omega) (by omega) with ⟨c, _, _, h2, h3⟩ | ⟨b, hb, _, h2⟩
    · have hc : c < a.length := by omega
      have : t = a[c] := (intCmp_eq_zero _ _).mp (h3 hc)
      exact absurd (this ▸ List.getElem_mem hc) hnot
    · have hb' : b < a.length := by omega
      rw [rsb_eq_vec_of_loop a t intCmp b hb' (by rw [hend]; exact hb)]
      rw [if_neg]
      intro h0
      have : t = a[b] := (intCmp_eq_zero _ _).mp h0
      exact absurd (this ▸ List.getElem_mem hb') hnot

/-- Witness of C3: on `[1, 3, 5, 7, 9]` with target `5`, found at index 2,
`rsb_eq_vec` returns `2`. -/
theorem rsb_eq_vec_exact_witness :
    1 ≤ ([1, 3, 5, 7, 9] : List Int).length ∧
    ([1, 3, 5, 7, 9] : List Int).Sorted (· < ·) ∧
    rsb_eq_vec [1, 3, 5, 7, 9] (5 : Int) intCmp = Res.ok 2 :=
  ⟨by decide, by decide,
    (rsb_eq_vec_exact [1, 3, 5, 7, 9] 5 (by decide) (by decide)).1 2 (by decide) (by decide)⟩

/-- C4: for every integer vector `a` of length `n ≥ 1` (ascending or not) and
every target `t` strictly greater than every element of `a`, `rsb_gt_vec` with
the comparator `sign(t - e)` returns `n`. -/
theorem rsb_gt_vec_above_all (a : List Int) (t : Int) (hn : 1 ≤ a.length)
    (habove : ∀ e ∈ a, e < t) :
    rsb_gt_vec a t intCmp = Res.ok (a.length : Int) := by
  have hend : size_sub a.length 1 = a.length - 1 := size_sub_one hn
  have hall : ∀ (i : Nat) (hi : i < a.length), 0 ≤ intCmp t a[i] := fun i hi =>
    le_of_lt ((intCmp_pos _ _).mpr (habove _ (List.getElem_mem hi)))
  obtain ⟨b, hb, _, h2, _, h4⟩ :=
    rsb_gt_loop_spec a t intCmp (fun i _ hi _ _ _ => hall i hi)
      (a.length + 1) 0 (a.length - 1) (Nat.zero_le _) (by omega) (by omega)
  have hb' : b < a.length := by omega
  have hbe : b = a.length - 1 := by
    by_contra hne
    have := h4 hb' (by omega)
    have := hall b hb'
    omega
  rw [rsb_gt_vec_of_loop a t intCmp b hb' (by rw [hend]; exact hb), hend]
  rw [if_neg (by simp [hbe]), if_pos (hall b hb')]
  congr 1
  omega

/-- Witness of C4: on `[1, 3, 5, 7, 9]` with target `10`, `rsb_gt_vec`
returns `5`. -/
theorem rsb_gt_vec_above_all_witness :
    1 ≤ ([1, 3, 5, 7, 9] : List Int).length ∧
    (∀ e ∈ ([1, 3, 5, 7, 9] : List Int), e < 10) ∧
    rsb_gt_vec [1, 3, 5, 7, 9] (10 : Int) intCmp = Res.ok 5 :=
  ⟨by decide, by decide, rsb_gt_vec_above_all [1, 3, 5, 7, 9] 10 (by decide) (by decide)⟩

/-- C5: for every integer vector `a` of length `n ≥ 1` (ascending or not) and
every target `t` strictly less than every element of `a`, `rsb_lt_vec` with the
comparator `sign(t - e)` returns `-1`. -/
theorem rsb_lt_vec_below_all (a : List Int) (t : Int) (hn : 1 ≤ a.length)
    (hbelow : ∀ e ∈ a, t < e) :
    rsb_lt_vec a t intCmp = Res.ok (-1) := by
  have hend : size_sub a.length 1 = a.length - 1 := size_sub_one hn
  have hall : ∀ (i : Nat) (hi : i < a.length), intCmp t a[i] < 0 := fun i hi =>
    (intCmp_neg _ _).mpr (hbelow _ (List.getElem_mem hi))
  obtain ⟨b, hb, _, h2, _, h4⟩ :=
    rsb_lt_loop_spec a t intCmp
      (fun i j hi hj _ hpos => absurd hpos (by have := hall j hj; omega))
      (a.length + 1) 0 (a.length - 1) (Nat.zero_le _) (by omega) (by omega)
  have hb' : b < a.length := by omega
  have hb0 : b = 0 := by
    by_contra hne
    have := h4 hb' (by omega)
    have := hall b hb'
    omega
  rw [rsb_lt_vec_of_loop a t intCmp b hb' (by rw [hend]; exact hb)]
  rw [if_neg (by simp [hb0]), if_pos (le_of_lt (hall b hb'))]
  congr 1
  omega

/-- Witness of C5: on `[1, 3, 5, 7, 9]` with target `0`, `rsb_lt_vec`
returns `-1`. -/
theorem rsb_lt_vec_below_all_witness :
    1 ≤ ([1, 3, 5, 7, 9] : List Int).length ∧
    (∀ e ∈ ([1, 3, 5, 7, 9] : List Int), 0 < e) ∧
    rsb_lt_vec [1, 3, 5, 7, 9] (0 : Int) intCmp = Res.ok (-1) :=
  ⟨by decide, by decide, rsb_lt_vec_below_all [1, 3, 5, 7, 9] 0 (by decide) (by decide)⟩

/-! ## Field types -/

/-- C6: `fieldTypeToValueType` maps `INDEXFLD_T_NUMERIC` to `RSValue_Number`,
`INDEXFLD_T_FULLTEXT` and `INDEXFLD_T_TAG` to `RSValue_String`, and
`INDEXFLD_T_GEO` to `RSValue_Null`; it yields a value kind for every field
type. -/
theorem fieldTypeToValueType_single_types :
    fieldTypeToValueType INDEXFLD_T_NUMERIC = RSValueType.RSValue_Number ∧
    fieldTypeToValueType INDEXFLD_T_FULLTEXT = RSValueType.RSValue_String ∧
    fieldTypeToValueType INDEXFLD_T_TAG = RSValueType.RSValue_String ∧
    fieldTypeToValueType INDEXFLD_T_GEO = RSValueType.RSValue_Null ∧
    ∀ ft : FieldType, ∃ v : RSValueType, fieldTypeToValueType ft = v :=
  ⟨by decide, by decide, by decide, by decide, fun ft => ⟨fieldTypeToValueType ft, rfl⟩⟩

/-! ## Convergence of the searches -/

/-- C7: for every vector of length at least 1, every target and every
comparator, whatever its relation to the order of the vector: each iteration of
the three loops, from a state `begin < end < n`, keeps `begin ≤ end` and makes
`end - begin` strictly smaller (or, in `rsb_eq_vec`, returns); each loop exits
with `begin = end` within `end - begin` iterations; and `rsb_gt_vec`,
`rsb_lt_vec` and `rsb_eq_vec` return a value. -/
theorem searches_converge {σ α : Type} (vec : List α) (s : σ) (cmp : rsbcompare σ α)
    (hn : 1 ≤ vec.length) :
    (Narrows (rsb_gt_step vec s cmp) vec.length ∧
      Exits (rsb_gt_loop vec s cmp) vec.length ∧
      ∃ r, rsb_gt_vec vec s cmp = Res.ok r) ∧
    (Narrows (rsb_lt_step vec s cmp) vec.length ∧
      Exits (rsb_lt_loop vec s cmp) vec.length ∧
      ∃ r, rsb_lt_vec vec s cmp = Res.ok r) ∧
    (NarrowsOrReturns (rsb_eq_step vec s cmp) vec.length ∧
      ExitsOrReturns (rsb_eq_loop vec s cmp) vec.length ∧
      ∃ r, rsb_eq_vec vec s cmp = Res.ok r) := by
  have hend : size_sub vec.length 1 = vec.length - 1 := size_sub_one hn
  refine ⟨⟨rsb_gt_step_narrows vec s cmp, ?_, ?_⟩, ⟨rsb_lt_step_narrows vec s cmp, ?_, ?_⟩,
    ⟨rsb_eq_step_narrows vec s cmp, ?_, ?_⟩⟩
  · intro fuel begin end_ h1 h2 h3
    obtain ⟨b, hb, _⟩ := rsb_gt_loop_exits vec s cmp fuel begin end_ h1 h2 h3
    exact ⟨b, hb⟩
  · obtain ⟨b, hb, _, h2⟩ := rsb_gt_loop_exits vec s cmp (vec.length + 1) 0 (vec.length - 1)
      (Nat.zero_le _) (by omega) (by omega)
    rw [rsb_gt_vec_of_loop vec s cmp b (by omega) (by rw [hend]; exact hb)]
    split_ifs <;> exact ⟨_, rfl⟩
  · intro fuel begin end_ h1 h2 h3
    obtain ⟨b, hb, _⟩ := rsb_lt_loop_exits vec s cmp fuel begin end_ h1 h2 h3
    exact ⟨b, hb⟩
  · obtain ⟨b, hb, _, h2⟩ := rsb_lt_loop_exits vec s cmp (vec.length + 1) 0 (vec.length - 1)
      (Nat.zero_le _) (by omega) (by omega)
    rw [rsb_lt_vec_of_loop vec s cmp b (by omega) (by rw [hend]; exact hb)]
    split_ifs <;> exact ⟨_, rfl⟩
  · intro fuel begin end_ h1 h2 h3
    rcases rsb_eq_loop_exits vec s cmp fuel begin end_ h1 h2 h3 with
      ⟨c, hc, _⟩ | ⟨b, hb, _⟩
    · exact Or.inl ⟨c, hc⟩
    · exact Or.inr ⟨b, hb⟩
  · rcases rsb_eq_loop_exits vec s cmp (vec.length + 1) 0 (vec.length - 1)
      (Nat.zero_le _) (by omega) (by omega) with ⟨c, hc, _⟩ | ⟨b, hb, _, h2⟩
    · exact ⟨_, rsb_eq_vec_of_found vec s cmp c (by rw [hend]; exact hc)⟩
    · rw [rsb_eq_vec_of_loop vec s cmp b (by omega) (by rw [hend]; exact hb)]
      split_ifs <;> exact ⟨_, rfl⟩

/-- Witness of C7: the vector `[1, 3, 5, 7, 9]`, the target `5` and the
comparator `e - t`, which reverses the order of the vector. -/
theorem searches_converge_witness :
    1 ≤ ([1, 3, 5, 7, 9] : List Int).length ∧
    ((Narrows (rsb_gt_step [1, 3, 5, 7, 9] (5 : Int) (fun t e => e - t)) 5 ∧
        Exits (rsb_gt_loop [1, 3, 5, 7, 9] (5 : Int) (fun t e => e - t)) 5 ∧
        ∃ r, rsb_gt_vec [1, 3, 5, 7, 9] (5 : Int) (fun t e => e - t) = Res.ok r) ∧
      (Narrows (rsb_lt_step [1, 3, 5, 7, 9] (5 : Int) (fun t e => e - t)) 5 ∧
        Exits (rsb_lt_loop [1, 3, 5, 7, 9] (5 : Int) (fun t e => e - t)) 5 ∧
        ∃ r, rsb_lt_vec [1, 3, 5, 7, 9] (5 : Int) (fun t e => e - t) = Res.ok r) ∧
      (NarrowsOrReturns (rsb_eq_step [1, 3, 5, 7, 9] (5 : Int) (fun t e => e - t)) 5 ∧
        ExitsOrReturns (rsb_eq_loop [1, 3, 5, 7, 9] (5 : Int) (fun t e => e - t)) 5 ∧
        ∃ r, rsb_eq_vec [1, 3, 5, 7, 9] (5 : Int) (fun t e => e - t) = Res.ok r)) :=
  ⟨by decide, searches_converge [1, 3, 5, 7, 9] (5 : Int) (fun t e => e - t) (by decide)⟩

/-! ## Rune buffers -/

/-- C8, as stated, fails at a count of 127 code units: `setup_storage(127)`
selects the inline array, although `127 + 1` exceeds
`RUNE_STATIC_ALLOC_SIZE = 127`.  It also fails at the count `SIZE_MAX`, where
`nbytes + 1` wraps to `0`: the heap block has `0` code units. -/
theorem setup_storage_inline_at_127 :
    (Runes.setup_storage ⟨false, RunePtr.null, 0, 0⟩ 127)._dynamic = false ∧
    (Runes.setup_storage ⟨false, RunePtr.null, 0, 0⟩ 127)._runes = RunePtr.runes_s ∧
    ¬ ((Runes.setup_storage ⟨false, RunePtr.null, 0, 0⟩ 127)._dynamic = false ↔
        127 + 1 ≤ RUNE_STATIC_ALLOC_SIZE) ∧
    (Runes.setup_storage ⟨false, RunePtr.null, 0, 0⟩ (2 ^ 64 - 1))._runes = RunePtr.heap 0 ∧
    (Runes.setup_storage ⟨false, RunePtr.null, 0, 0⟩ (2 ^ 64 - 1)).storage_units = 0 ∧
    (Runes.setup_storage ⟨false, RunePtr.null, 0, 0⟩ (2 ^ 64 - 1))._nbytes = 0 := by
  decide

theorem size_add_of_lt {a b : Nat} (h : a + b < SIZE_MOD) : size_add a b = a + b := by
  unfold size_add
  exact Nat.mod_eq_of_lt h

theorem size_mul_of_lt {a b : Nat} (h : a * b < SIZE_MOD) : size_mul a b = a * b := by
  unfold size_mul
  exact Nat.mod_eq_of_lt h

/-- C8, amended: for every code-unit count `c`, `setup_storage(c)` selects the
inline array exactly when `c ≤ 127`, that is when `c` plus one terminator fits
in the `RUNE_STATIC_ALLOC_SIZE + 1 = 128` code units of the inline array, and
otherwise allocates a heap block; the block has exactly `c + 1` code units, and
`_nbytes` becomes `c + 1`, whenever the byte size `(c + 1) * sizeof(rune)` does
not wrap in `size_t`. -/
theorem setup_storage_mode (self : Runes) (c : Nat) :
    ((self.setup_storage c)._dynamic = false ↔ c ≤ RUNE_STATIC_ALLOC_SIZE) ∧
    ((self.setup_storage c)._runes = RunePtr.runes_s ↔ c + 1 ≤ RUNE_STATIC_ALLOC_SIZE + 1) ∧
    (¬ c ≤ RUNE_STATIC_ALLOC_SIZE →
      (self.setup_storage c)._dynamic = true ∧
      (self.setup_storage c)._runes
        = RunePtr.heap (size_mul (size_add c 1) sizeof_rune)) ∧
    (¬ c ≤ RUNE_STATIC_ALLOC_SIZE → (c + 1) * sizeof_rune < SIZE_MOD →
      (self.setup_storage c)._runes = RunePtr.heap ((c + 1) * sizeof_rune) ∧
      (self.setup_storage c).storage_units = c + 1) ∧
    (self.setup_storage c)._nbytes = size_add c 1 ∧
    ((c + 1) * sizeof_rune < SIZE_MOD → (self.setup_storage c)._nbytes = c + 1) := by
  have hadd : (c + 1) * sizeof_rune < SIZE_MOD → size_add c 1 = c + 1 := by
    intro hb
    apply size_add_of_lt
    simp only [sizeof_rune] at hb
    omega
  by_cases h : c ≤ RUNE_STATIC_ALLOC_SIZE
  · have hd : decide (c > RUNE_STATIC_ALLOC_SIZE) = false := by
      simp only [decide_eq_false_iff_not]; omega
    refine ⟨?_, ?_, fun hc => absurd h hc, fun hc => absurd h hc, ?_, ?_⟩
    · simp [Runes.setup_storage, hd, h]
    · simp [Runes.setup_storage, hd, h]
    · simp [Runes.setup_storage, hd]
    · intro hb
      simp [Runes.setup_storage, hd, hadd hb]
  · have hd : decide (c > RUNE_STATIC_ALLOC_SIZE) = true := by
      simp only [decide_eq_true_eq]; omega
    refine ⟨?_, ?_, fun _ => ?_, fun _ hb => ?_, ?_, ?_⟩
    · simp [Runes.setup_storage, hd, h]
    · simp [Runes.setup_storage, hd, h]
    · simp [Runes.setup_storage, hd]
    · have hmul : size_mul (c + 1) sizeof_rune = (c + 1) * sizeof_rune := size_mul_of_lt hb
      simp only [sizeof_rune] at hmul
      simp [Runes.setup_storage, Runes.storage_units, hd, hadd hb, hmul, sizeof_rune]
    · simp [Runes.setup_storage, hd]
    · intro hb
      simp [Runes.setup_storage, hd, hadd hb]

/-- C9: after `append`, `_dynamic` is true if and only if it was true before or
the combined size `_nbytes + runes._nbytes`, a `size_t` sum, exceeds
`RUNE_STATIC_ALLOC_SIZE = 127`; so a buffer with `_dynamic` true keeps it true.
When the sum does not wrap it is the plain sum of the two sizes. -/
theorem append_dynamic_iff (self runes : Runes) :
    ((self.append runes)._dynamic = true ↔
      (self._dynamic = true ∨
        size_add self._nbytes runes._nbytes > RUNE_STATIC_ALLOC_SIZE)) ∧
    (self._dynamic = true → (self.append runes)._dynamic = true) ∧
    (self._nbytes + runes._nbytes < SIZE_MOD →
      ((self.append runes)._dynamic = true ↔
        (self._dynamic = true ∨ self._nbytes + runes._nbytes > RUNE_STATIC_ALLOC_SIZE))) ∧
    RUNE_STATIC_ALLOC_SIZE = 127 := by
  have key : (self.append runes)._dynamic = true ↔
      (self._dynamic = true ∨
        size_add self._nbytes runes._nbytes > RUNE_STATIC_ALLOC_SIZE) := by
    unfold Runes.append
    cases hd : self._dynamic <;>
      by_cases h : size_add self._nbytes runes._nbytes > RUNE_STATIC_ALLOC_SIZE <;>
      simp [hd, h]
  refine ⟨key, fun hd => key.mpr (Or.inl hd), fun hb => ?_, rfl⟩
  rw [key, size_add_of_lt hb]

/-- An inline buffer whose `_nbytes` is `SIZE_MAX`, to which a buffer with
`_nbytes = 1` is appended: the `size_t` sum wraps to `0`, and `append` does not
migrate the buffer. -/
theorem append_at_size_max :
    Runes.append ⟨false, RunePtr.runes_s, 0, 2 ^ 64 - 1⟩ ⟨false, RunePtr.runes_s, 1, 1⟩
      = ⟨false, RunePtr.runes_s, 0, 2 ^ 64 - 1⟩ := by
  decide

/-- The members of a copy, in terms of the members of the source: they do not
depend on the object under construction. -/
theorem copy_members (self runes : Runes) :
    (self.copy runes)._dynamic = decide (runes._nbytes > RUNE_STATIC_ALLOC_SIZE) ∧
    (self.copy runes)._nbytes = size_add runes._nbytes 1 ∧
    (self.copy runes)._len = runes._len := by
  unfold Runes.copy Runes.setup_storage
  by_cases h : runes._nbytes > RUNE_STATIC_ALLOC_SIZE <;> simp [h]

/-- C10: two sources on which the copy has another storage mode than its
source, while the length is duplicated.  First, the copy `s1` of an inline
buffer of 127 code units is inline with `_nbytes = 128`, and the copy of `s1`
has `_dynamic` true.  Second, an inline buffer with `_nbytes = 100` to which a
buffer with `_nbytes = 100` is appended has `_dynamic` true and `_nbytes = 100`,
and its copy has `_dynamic` false. -/
theorem copy_storage_mode_differs :
    (Runes.copy ⟨false, RunePtr.null, 0, 0⟩ ⟨false, RunePtr.runes_s, 127, 127⟩
        = ⟨false, RunePtr.runes_s, 127, 128⟩ ∧
      (Runes.copy ⟨false, RunePtr.null, 0, 0⟩ ⟨false, RunePtr.runes_s, 127, 128⟩).len
        = Runes.len ⟨false, RunePtr.runes_s, 127, 128⟩ ∧
      (Runes.copy ⟨false, RunePtr.null, 0, 0⟩ ⟨false, RunePtr.runes_s, 127, 128⟩)._dynamic
        = true) ∧
    (Runes.append ⟨false, RunePtr.runes_s, 100, 100⟩ ⟨false, RunePtr.runes_s, 100, 100⟩
        = ⟨true, RunePtr.heap 201, 100, 100⟩ ∧
      (Runes.copy ⟨false, RunePtr.null, 0, 0⟩ ⟨true, RunePtr.heap 201, 100, 100⟩).len
        = Runes.len ⟨true, RunePtr.heap 201, 100, 100⟩ ∧
      (Runes.copy ⟨false, RunePtr.null, 0, 0⟩ ⟨true, RunePtr.heap 201, 100, 100⟩)._dynamic
        = false) := by
  decide

/-- C11: `append` leaves `len()` and `nbytes()` as they were, for every buffer and
every appended buffer; so on a 3-rune buffer to which a 2-rune buffer is
appended, `len()` is `3` and not `3 + 2`, and `nbytes()` is still `3`. -/
theorem append_keeps_len_and_nbytes :
    (∀ self runes : Runes,
      (self.append runes).len = self.len ∧ (self.append runes).nbytes = self.nbytes) ∧
    (Runes.append ⟨false, RunePtr.runes_s, 3, 3⟩ ⟨false, RunePtr.runes_s, 2, 2⟩).len = 3 ∧
    (Runes.append ⟨false, RunePtr.runes_s, 3, 3⟩ ⟨false, RunePtr.runes_s, 2, 2⟩).len ≠
      Runes.len ⟨false, RunePtr.runes_s, 3, 3⟩ + Runes.len ⟨false, RunePtr.runes_s, 2, 2⟩ ∧
    (Runes.append ⟨false, RunePtr.runes_s, 3, 3⟩ ⟨false, RunePtr.runes_s, 2, 2⟩).nbytes = 3 := by
  refine ⟨?_, by decide, by decide, by decide⟩
  intro self runes
  simp only [Runes.append, Runes.len, Runes.nbytes]
  split_ifs <;> exact ⟨rfl, rfl⟩

/-- C12: for every buffer whose storage pointer `_runes` is not null, `empty()`
is true if and only if `len()` is `0`, whatever `_dynamic` and `_nbytes` are. -/
theorem empty_iff_len_zero (self : Runes) (hptr : self._runes ≠ RunePtr.null) :
    self.empty = true ↔ self.len = 0 := by
  unfold Runes.empty Runes.len
  simp [hptr]

/-- Witness of C12: a heap-owned buffer of logical length 0 with a capacity
counter of 200. -/
theorem empty_iff_len_zero_witness :
    (⟨true, RunePtr.heap 402, 0, 200⟩ : Runes)._runes ≠ RunePtr.null ∧
    (Runes.empty ⟨true, RunePtr.heap 402, 0, 200⟩ = true ↔
      Runes.len ⟨true, RunePtr.heap 402, 0, 200⟩ = 0) :=
  ⟨by decide, empty_iff_len_zero ⟨true, RunePtr.heap 402, 0, 200⟩ (by decide)⟩

/-! ## The equality branch of `rsb_gt_vec` -/

theorem rsb_gt_step_zeroAsPositive {σ α : Type} (vec : List α) (s : σ)
    (cmp : rsbcompare σ α) (begin end_ : Nat) :
    rsb_gt_step vec s (zeroAsPositive cmp) begin end_ = rsb_gt_step vec s cmp begin end_ := by
  simp only [rsb_gt_step]
  cases vecAt vec ((begin + end_) / 2) with
  | error f => rfl
  | ok p =>
    simp only [zeroAsPositive]
    by_cases h0 : cmp s p = 0
    · simp [h0]
    · simp [h0]

theorem rsb_gt_loop_zeroAsPositive {σ α : Type} (vec : List α) (s : σ)
    (cmp : rsbcompare σ α) :
    ∀ fuel begin end_ : Nat,
      rsb_gt_loop vec s (zeroAsPositive cmp) fuel begin end_
        = rsb_gt_loop vec s cmp fuel begin end_ := by
  intro fuel
  induction fuel with
  | zero =>
    intro begin end_
    unfold rsb_gt_loop
    rfl
  | succ k ih =>
    intro begin end_
    rw [rsb_gt_loop, rsb_gt_loop]
    rw [rsb_gt_step_zeroAsPositive]
    by_cases hlt : begin < end_
    · simp only [if_pos hlt]
      cases rsb_gt_step vec s cmp begin end_ with
      | error f => rfl
      | ok r => exact ih r.1 r.2
    · simp only [if_neg hlt]

/-- C13: for every vector, every target and every comparator `cmp`, each
iteration of the loop of `rsb_gt_vec` yields a next pair `(begin, end)` and never
a return value, a comparator result `0` moves `begin` past the midpoint exactly
as a positive result does, and `rsb_gt_vec` with `cmp` returns what it returns
with the comparator that answers `1` where `cmp` answers `0`. -/
theorem rsb_gt_vec_equality_branch {σ α : Type} (vec : List α) (s : σ)
    (cmp : rsbcompare σ α) :
    (∀ (begin end_ : Nat) (h : floorMid begin end_ < vec.length),
      0 ≤ cmp s vec[floorMid begin end_] →
      rsb_gt_step vec s cmp begin end_ = Res.ok (floorMid begin end_ + 1, end_)) ∧
    rsb_gt_vec vec s cmp = rsb_gt_vec vec s (zeroAsPositive cmp) := by
  constructor
  · intro begin end_ h hc
    rcases rsb_gt_step_cases vec s cmp begin end_ h with ⟨_, he⟩ | ⟨hneg, _⟩
    · exact he
    · omega
  · unfold rsb_gt_vec
    rw [rsb_gt_loop_zeroAsPositive]
    cases rsb_gt_loop vec s cmp (vec.length + 1) 0 (size_sub vec.length 1) with
    | error f => rfl
    | ok r =>
      obtain ⟨b, e⟩ := r
      simp only []
      cases vecAt vec b with
      | error f => rfl
      | ok p =>
        simp only [zeroAsPositive]
        by_cases h0 : cmp s p = 0
        · simp [h0]
        · simp [h0]

/-! ## Terminator and logical length of a rune buffer -/

/-- C14: the index at which `copy(const Runes &)` writes the terminator is
inside the storage chosen by `setup_storage` only for a source with
`_nbytes < 127`.  For a source with `_nbytes = 127` the write is at index `128`
of the inline array of `128` code units, and for a source with `_nbytes = 200`
it is at index `201` of a heap block of `201` code units. -/
theorem copy_terminator_outside_storage :
    (∀ self runes : Runes,
      Runes.copy_terminator_index self runes < Runes.copy_storage_units self runes ↔
        runes._nbytes < RUNE_STATIC_ALLOC_SIZE) ∧
    (Runes.copy_terminator_index ⟨false, RunePtr.null, 0, 0⟩ ⟨false, RunePtr.runes_s, 127, 127⟩
        = 128 ∧
      Runes.copy_storage_units ⟨false, RunePtr.null, 0, 0⟩ ⟨false, RunePtr.runes_s, 127, 127⟩
        = 128) ∧
    (Runes.copy_terminator_index ⟨false, RunePtr.null, 0, 0⟩ ⟨true, RunePtr.heap 402, 200, 200⟩
        = 201 ∧
      Runes.copy_storage_units ⟨false, RunePtr.null, 0, 0⟩ ⟨true, RunePtr.heap 402, 200, 200⟩
        = 201) := by
  refine ⟨?_, by decide, by decide⟩
  intro self runes
  by_cases h : runes._nbytes > RUNE_STATIC_ALLOC_SIZE
  · have hd : decide (runes._nbytes > RUNE_STATIC_ALLOC_SIZE) = true := by
      simp only [decide_eq_true_eq]; exact h
    have hle : size_mul (size_add runes._nbytes 1) 2 ≤ size_add runes._nbytes 1 * 2 :=
      Nat.mod_le _ _
    simp only [Runes.copy_terminator_index, Runes.copy_storage_units, Runes.setup_storage,
      Runes.storage_units, sizeof_rune, hd, if_true]
    simp only [RUNE_STATIC_ALLOC_SIZE] at h ⊢
    omega
  · have hd : decide (runes._nbytes > RUNE_STATIC_ALLOC_SIZE) = false := by
      simp only [decide_eq_false_iff_not]; exact h
    have hadd : size_add runes._nbytes 1 = runes._nbytes + 1 := by
      apply size_add_of_lt
      simp only [RUNE_STATIC_ALLOC_SIZE] at h
      simp only [SIZE_MOD]
      omega
    simp only [Runes.copy_terminator_index, Runes.copy_storage_units, Runes.setup_storage,
      Runes.storage_units, hd, hadd]
    simp only [RUNE_STATIC_ALLOC_SIZE] at h ⊢
    simp
    omega

/-- C15: `copy(const char *str, size_t str_len)`, and so the constructor
`Runes(const char *str, size_t len)`, stores the passed length in `_len` and
the rune count reported by the decoder in `_nbytes`, for every decoder, string
and passed length; the constructor `Runes(const char *str, Folded folded)`
stores the reported rune count in `_len`.  On the two-byte UTF-8 string `C3 A9`
passed with its byte length `2`, the decoder reports `1` rune and `len()`
is `2`. -/
theorem construct_len_stores_passed_length :
    (∀ (dec : Runes.StrDecoder) (self : Runes) (str : List Nat) (len : Nat),
      (Runes.construct_len dec self str len).len = len ∧
      (Runes.construct_len dec self str len).nbytes = (dec str self._dynamic).len) ∧
    (∀ (dec fdec : Runes.StrDecoder) (self : Runes) (str : List Nat),
      (Runes.construct dec fdec self str Runes.Folded.No).len = (dec str self._dynamic).len) ∧
    (strToRunes [0xC3, 0xA9] false).len = 1 ∧
    (Runes.construct_len strToRunes ⟨false, RunePtr.null, 0, 0⟩ [0xC3, 0xA9] 2).len = 2 ∧
    (Runes.construct_len strToRunes ⟨false, RunePtr.null, 0, 0⟩ [0xC3, 0xA9] 2).len ≠
      (strToRunes [0xC3, 0xA9] false).len := by
  refine ⟨fun dec self str len => ⟨rfl, rfl⟩, fun dec fdec self str => rfl,
    by decide, by decide, by decide⟩

/-! ## Field types: combined types and positions -/

/-- C19: for every field-type value other than `INDEXFLD_T_NUMERIC`,
`INDEXFLD_T_FULLTEXT` and `INDEXFLD_T_TAG`, `fieldTypeToValueType` returns
`RSValue_Null`. -/
theorem fieldTypeToValueType_other (ft : FieldType) (hnum : ft ≠ INDEXFLD_T_NUMERIC)
    (htext : ft ≠ INDEXFLD_T_FULLTEXT) (htag : ft ≠ INDEXFLD_T_TAG) :
    fieldTypeToValueType ft = RSValueType.RSValue_Null := by
  unfold fieldTypeToValueType
  rw [if_neg hnum, if_neg htext, if_neg htag]
  split_ifs <;> rfl

/-- Witness of C19: the combination `INDEXFLD_T_FULLTEXT | INDEXFLD_T_TAG`,
of value `0x09`. -/
theorem fieldTypeToValueType_other_witness :
    (INDEXFLD_T_FULLTEXT ||| INDEXFLD_T_TAG) ≠ INDEXFLD_T_NUMERIC ∧
    (INDEXFLD_T_FULLTEXT ||| INDEXFLD_T_TAG) ≠ INDEXFLD_T_FULLTEXT ∧
    (INDEXFLD_T_FULLTEXT ||| INDEXFLD_T_TAG) ≠ INDEXFLD_T_TAG ∧
    fieldTypeToValueType (INDEXFLD_T_FULLTEXT ||| INDEXFLD_T_TAG) = RSValueType.RSValue_Null :=
  ⟨by decide, by decide, by decide,
    fieldTypeToValueType_other (INDEXFLD_T_FULLTEXT ||| INDEXFLD_T_TAG)
      (by decide) (by decide) (by decide)⟩

/-- C20: `INDEXTYPE_FROM_POS(INDEXTYPE_TO_POS(T))` is `T` for each of the four
field types, `INDEXTYPE_TO_POS(INDEXTYPE_FROM_POS(P))` is `P` for each position
`P` below `INDEXFLD_NUM_TYPES`, and `INDEXTYPE_TO_POS` is `-1` on every other
value. -/
theorem indextype_pos_round_trip :
    (∀ T : FieldType,
      T = INDEXFLD_T_FULLTEXT ∨ T = INDEXFLD_T_NUMERIC ∨ T = INDEXFLD_T_GEO ∨
        T = INDEXFLD_T_TAG →
      INDEXTYPE_FROM_POS (INDEXTYPE_TO_POS T) = some T) ∧
    (∀ P : Nat, P < INDEXFLD_NUM_TYPES →
      Option.map INDEXTYPE_TO_POS (INDEXTYPE_FROM_POS (P : Int)) = some (P : Int)) ∧
    (∀ T : FieldType,
      T ≠ INDEXFLD_T_FULLTEXT → T ≠ INDEXFLD_T_NUMERIC → T ≠ INDEXFLD_T_GEO →
        T ≠ INDEXFLD_T_TAG →
      INDEXTYPE_TO_POS T = -1) := by
  refine ⟨?_, ?_, ?_⟩
  · intro T h
    rcases h with h | h | h | h <;> subst h <;> decide
  · intro P hP
    have h4 : P < 4 := hP
    interval_cases P <;> decide
  · intro T h1 h2 h3 h4
    unfold INDEXTYPE_TO_POS
    rw [if_neg h1, if_neg h2, if_neg h3, if_neg h4]

/-! ## What `rsb_gt_vec` and `rsb_lt_vec` compute on ascending integer keys -/

theorem intCmp_nonneg (t e : Int) : 0 ≤ intCmp t e ↔ e ≤ t := by
  have h1 := intCmp_neg t e
  constructor
  · intro h
    by_contra hc
    have := h1.mpr (by omega)
    omega
  · intro h
    by_contra hc
    have := h1.mp (by omega)
    omega

theorem intCmp_nonpos (t e : Int) : intCmp t e ≤ 0 ↔ t ≤ e := by
  have h1 := intCmp_pos t e
  constructor
  · intro h
    by_contra hc
    have := h1.mpr (by omega)
    omega
  · intro h
    by_contra hc
    have := h1.mp (by omega)
    omega

theorem sorted_le_getElem (a : List Int) (hs : a.Sorted (· ≤ ·)) (i j : Nat)
    (hi : i < a.length) (hj : j < a.length) (hij : i ≤ j) : a[i] ≤ a[j] := by
  rcases Nat.eq_or_lt_of_le hij with heq | hlt
  · subst heq
    exact le_refl _
  · exact List.pairwise_iff_getElem.mp hs i j hi hj hlt

theorem sorted_nodup_getElem_lt (a : List Int) (hs : a.Sorted (· ≤ ·)) (hnd : a.Nodup)
    (i j : Nat) (hi : i < a.length) (hj : j < a.length) (hij : i < j) : a[i] < a[j] := by
  have h1 : a[i] ≤ a[j] := List.pairwise_iff_getElem.mp hs i j hi hj hij
  have h2 : a[i] ≠ a[j] := List.pairwise_iff_getElem.mp hnd i j hi hj hij
  omega

/-- A predicate that is true on the first `r` elements of a list and false on
the others is true of exactly `r` elements. -/
theorem countP_eq_of_boundary (p : Int → Bool) :
    ∀ (a : List Int) (r : Nat), r ≤ a.length →
      (∀ (i : Nat) (hi : i < a.length), i < r → p a[i] = true) →
      (∀ (i : Nat) (hi : i < a.length), r ≤ i → p a[i] = false) →
      a.countP p = r := by
  intro a
  induction a with
  | nil =>
    intro r hr _ _
    simp only [List.length_nil, Nat.le_zero] at hr
    simp [hr]
  | cons x xs ih =>
    intro r hr htrue hfalse
    cases r with
    | zero =>
      have hx : ¬ p x = true := by
        have := hfalse 0 (by simp) (le_refl _)
        simpa using this
      rw [List.countP_cons_of_neg p _ hx]
      exact ih 0 (Nat.zero_le _) (fun i _ h => absurd h (Nat.not_lt_zero _))
        (fun i hi _ => hfalse (i + 1) (by simp only [List.length_cons]; omega) (Nat.zero_le _))
    | succ k =>
      have hx : p x = true := htrue 0 (by simp) (Nat.succ_pos _)
      rw [List.countP_cons_of_pos p _ hx]
      have hk : k ≤ xs.length := by
        simp only [List.length_cons] at hr
        omega
      rw [ih k hk
        (fun i hi h => htrue (i + 1) (by simp only [List.length_cons]; omega) (by omega))
        (fun i hi h => hfalse (i + 1) (by simp only [List.length_cons]; omega) (by omega))]

/-- On an ascending integer vector `rsb_gt_vec` returns a position `r` such that
the elements before `r` are `≤ t` and the elements from `r` on are `> t`. -/
theorem rsb_gt_vec_boundary (a : List Int) (t : Int) (hn : 1 ≤ a.length)
    (hs : a.Sorted (· ≤ ·)) :
    ∃ r : Nat, rsb_gt_vec a t intCmp = Res.ok (r : Int) ∧ r ≤ a.length ∧
      (∀ (i : Nat) (hi : i < a.length), i < r → a[i] ≤ t) ∧
      (∀ (i : Nat) (hi : i < a.length), r ≤ i → t < a[i]) := by
  have hend : size_sub a.length 1 = a.length - 1 := size_sub_one hn
  obtain ⟨b, hb, _, h2, h3, h4⟩ :=
    rsb_gt_loop_spec a t intCmp
      (fun i j hi hj hij hc => (intCmp_nonneg _ _).mpr
        (le_trans (sorted_le_getElem a hs i j hi hj hij) ((intCmp_nonneg _ _).mp hc)))
      (a.length + 1) 0 (a.length - 1) (Nat.zero_le _) (by omega) (by omega)
  have hb' : b < a.length := by omega
  have hbefore : ∀ (i : Nat) (hi : i < a.length), i < b → a[i] ≤ t := fun i hi hib =>
    (intCmp_nonneg _ _).mp (h3 i hi (Nat.zero_le _) hib)
  rw [rsb_gt_vec_of_loop a t intCmp b hb' (by rw [hend]; exact hb), hend]
  by_cases hne : b ≠ a.length - 1
  · rw [if_pos hne]
    have hbt : t < a[b] := (intCmp_neg _ _).mp (h4 hb' (by omega))
    exact ⟨b, rfl, by omega, hbefore, fun i hi hbi =>
      lt_of_lt_of_le hbt (sorted_le_getElem a hs b i hb' hi hbi)⟩
  · rw [if_neg hne]
    have hbe : b = a.length - 1 := by omega
    by_cases hc : intCmp t a[b] ≥ 0
    · rw [if_pos hc]
      refine ⟨b + 1, by push_cast; rfl, by omega, ?_, fun i hi hbi => absurd hi (by omega)⟩
      intro i hi hib
      by_cases hlt : i < b
      · exact hbefore i hi hlt
      · have hib' : i = b := by omega
        subst hib'
        exact (intCmp_nonneg _ _).mp hc
    · rw [if_neg hc]
      refine ⟨b, rfl, by omega, hbefore, ?_⟩
      intro i hi hbi
      have hib' : i = b := by omega
      subst hib'
      exact (intCmp_neg _ _).mp (by omega)

/-- On an ascending integer vector `rsb_lt_vec` returns `r - 1` for a position
`r` such that the elements before `r` are `< t` and the elements from `r` on
are `≥ t`. -/
theorem rsb_lt_vec_boundary (a : List Int) (t : Int) (hn : 1 ≤ a.length)
    (hs : a.Sorted (· ≤ ·)) :
    ∃ r : Nat, rsb_lt_vec a t intCmp = Res.ok ((r : Int) - 1) ∧ r ≤ a.length ∧
      (∀ (i : Nat) (hi : i < a.length), i < r → a[i] < t) ∧
      (∀ (i : Nat) (hi : i < a.length), r ≤ i → t ≤ a[i]) := by
  have hend : size_sub a.length 1 = a.length - 1 := size_sub_one hn
  obtain ⟨b, hb, _, h2, h3, h4⟩ :=
    rsb_lt_loop_spec a t intCmp
      (fun i j hi hj hij hc => (intCmp_pos _ _).mpr
        (lt_of_le_of_lt (sorted_le_getElem a hs i j hi hj hij) ((intCmp_pos _ _).mp hc)))
      (a.length + 1) 0 (a.length - 1) (Nat.zero_le _) (by omega) (by omega)
  have hb' : b < a.length := by omega
  have hafter : ∀ (i : Nat) (hi : i < a.length), b < i → t ≤ a[i] := fun i hi hbi =>
    (intCmp_nonpos _ _).mp (h3 i hi hbi (by omega))
  rw [rsb_lt_vec_of_loop a t intCmp b hb' (by rw [hend]; exact hb)]
  by_cases hne : b ≠ 0
  · rw [if_pos hne]
    have hbt : a[b] < t := (intCmp_pos _ _).mp (h4 hb' (by omega))
    refine ⟨b + 1, by push_cast; simp, by omega, ?_, fun i hi hbi => hafter i hi (by omega)⟩
    intro i hi hib
    exact lt_of_le_of_lt (sorted_le_getElem a hs i b hi hb' (by omega)) hbt
  · rw [if_neg hne]
    have hb0 : b = 0 := by omega
    subst hb0
    by_cases hc : intCmp t a[0] ≤ 0
    · rw [if_pos hc]
      refine ⟨0, rfl, Nat.zero_le _, fun i _ h => absurd h (Nat.not_lt_zero _), ?_⟩
      intro i hi _
      by_cases hi0 : i = 0
      · subst hi0
        exact (intCmp_nonpos _ _).mp hc
      · exact hafter i hi (by omega)
    · rw [if_neg hc]
      refine ⟨1, by simp, hn, ?_, fun i hi hbi => hafter i hi (by omega)⟩
      intro i hi hib
      have hi0 : i = 0 := by omega
      subst hi0
      exact (intCmp_pos _ _).mp (by omega)

/-- C16: for every ascending integer vector `a` of length at least 1 and every
target `t`, with the comparator `sign(t - e)`, `rsb_gt_vec` returns the number
of elements `≤ t`; that number is the index of the first element `> t`, or the
length if there is none (the elements before it are `≤ t`, the elements from it
on are `> t`); when `a` has no duplicates and `t` is the element at index `i`
the result is `i + 1`; and when `t` does not occur in `a` the result is the
number of elements `< t`. -/
theorem rsb_gt_vec_counts_le (a : List Int) (t : Int) (hn : 1 ≤ a.length)
    (hs : a.Sorted (· ≤ ·)) :
    rsb_gt_vec a t intCmp = Res.ok ((a.countP (fun e => decide (e ≤ t)) : Nat) : Int) ∧
    (∀ (i : Nat) (hi : i < a.length), i < a.countP (fun e => decide (e ≤ t)) → a[i] ≤ t) ∧
    (∀ (i : Nat) (hi : i < a.length), a.countP (fun e => decide (e ≤ t)) ≤ i → t < a[i]) ∧
    (a.Nodup → ∀ (i : Nat) (hi : i < a.length), a[i] = t →
      rsb_gt_vec a t intCmp = Res.ok ((i : Int) + 1)) ∧
    (t ∉ a →
      rsb_gt_vec a t intCmp = Res.ok ((a.countP (fun e => decide (e < t)) : Nat) : Int)) := by
  obtain ⟨r, hr, hle, h1, h2⟩ := rsb_gt_vec_boundary a t hn hs
  have hcount : a.countP (fun e => decide (e ≤ t)) = r :=
    countP_eq_of_boundary _ a r hle
      (fun i hi hir => decide_eq_true (h1 i hi hir))
      (fun i hi hri => decide_eq_false (not_le.mpr (h2 i hi hri)))
  rw [hcount, hr]
  refine ⟨rfl, h1, h2, ?_, ?_⟩
  · intro hnd i hi hit
    have hir : i < r := by
      by_contra hc
      have := h2 i hi (by omega)
      omega
    have hri : r = i + 1 := by
      by_contra hc
      have hi1 : i + 1 < a.length := by omega
      have h3 := h1 (i + 1) hi1 (by omega)
      have h4 := sorted_nodup_getElem_lt a hs hnd i (i + 1) hi hi1 (Nat.lt_succ_self i)
      omega
    rw [hri]
    push_cast
    rfl
  · intro hnot
    have hcount' : a.countP (fun e => decide (e < t)) = r :=
      countP_eq_of_boundary _ a r hle
        (fun i hi hir => decide_eq_true (lt_of_le_of_ne (h1 i hi hir)
          (fun heq => hnot (heq ▸ List.getElem_mem hi))))
        (fun i hi hri => decide_eq_false (not_lt.mpr (le_of_lt (h2 i hi hri))))
    rw [hcount']

/-- Witness of C16: on `[1, 3, 3, 5, 5, 5, 9]` with target `5`, `rsb_gt_vec`
returns the number of elements `≤ 5`, which is `6`. -/
theorem rsb_gt_vec_counts_le_witness :
    1 ≤ ([1, 3, 3, 5, 5, 5, 9] : List Int).length ∧
    ([1, 3, 3, 5, 5, 5, 9] : List Int).Sorted (· ≤ ·) ∧
    rsb_gt_vec [1, 3, 3, 5, 5, 5, 9] (5 : Int) intCmp
      = Res.ok ((List.countP (fun e : Int => decide (e ≤ 5)) [1, 3, 3, 5, 5, 5, 9] : Nat) : Int) ∧
    List.countP (fun e : Int => decide (e ≤ 5)) [1, 3, 3, 5, 5, 5, 9] = 6 :=
  ⟨by decide, by decide,
    (rsb_gt_vec_counts_le [1, 3, 3, 5, 5, 5, 9] 5 (by decide) (by decide)).1, by decide⟩

/-- C17: for every ascending integer vector `a` of length at least 1 and every
target `t`, with the comparator `sign(t - e)`, `rsb_lt_vec` returns the number
of elements `< t` minus one; that is the index of the last element `< t`, or
`-1` if there is none (the elements up to it are `< t`, the elements after it
are `≥ t`); when `a` has no duplicates and `t` is the element at index `i` the
result is `i - 1`; and the result is `-1` exactly when `a[0] ≥ t`. -/
theorem rsb_lt_vec_counts_lt (a : List Int) (t : Int) (hn : 1 ≤ a.length)
    (hs : a.Sorted (· ≤ ·)) :
    rsb_lt_vec a t intCmp
      = Res.ok (((a.countP (fun e => decide (e < t)) : Nat) : Int) - 1) ∧
    (∀ (i : Nat) (hi : i < a.length), i < a.countP (fun e => decide (e < t)) → a[i] < t) ∧
    (∀ (i : Nat) (hi : i < a.length), a.countP (fun e => decide (e < t)) ≤ i → t ≤ a[i]) ∧
    (a.Nodup → ∀ (i : Nat) (hi : i < a.length), a[i] = t →
      rsb_lt_vec a t intCmp = Res.ok ((i : Int) - 1)) ∧
    (rsb_lt_vec a t intCmp = Res.ok (-1) ↔ t ≤ a[0]) := by
  obtain ⟨r, hr, hle, h1, h2⟩ := rsb_lt_vec_boundary a t hn hs
  have hcount : a.countP (fun e => decide (e < t)) = r :=
    countP_eq_of_boundary _ a r hle
      (fun i hi hir => decide_eq_true (h1 i hi hir))
      (fun i hi hri => decide_eq_false (not_lt.mpr (h2 i hi hri)))
  rw [hcount, hr]
  refine ⟨rfl, h1, h2, ?_, ?_⟩
  · intro hnd i hi hit
    have hri : r ≤ i := by
      by_contra hc
      have := h1 i hi (by omega)
      omega
    have hir : r = i := by
      by_contra hc
      have hr' : r < a.length := by omega
      have h3 := h2 r hr' (le_refl _)
      have h4 := sorted_nodup_getElem_lt a hs hnd r i hr' hi (by omega)
      omega
    rw [hir]
  · have h0 : 0 < a.length := hn
    constructor
    · intro heq
      have hr0 : r = 0 := by
        have := Res.ok.inj heq
        omega
      exact h2 0 h0 (by omega)
    · intro hge
      have hr0 : r = 0 := by
        by_contra hc
        have := h1 0 h0 (by omega)
        omega
      rw [hr0]
      rfl

/-- Witness of C17: on `[1, 3, 3, 5, 5, 5, 9]` with target `5`, `rsb_lt_vec`
returns the number of elements `< 5` minus one, which is `2`. -/
theorem rsb_lt_vec_counts_lt_witness :
    1 ≤ ([1, 3, 3, 5, 5, 5, 9] : List Int).length ∧
    ([1, 3, 3, 5, 5, 5, 9] : List Int).Sorted (· ≤ ·) ∧
    rsb_lt_vec [1, 3, 3, 5, 5, 5, 9] (5 : Int) intCmp
      = Res.ok (((List.countP (fun e : Int => decide (e < 5)) [1, 3, 3, 5, 5, 5, 9] : Nat) : Int)
          - 1) ∧
    ((List.countP (fun e : Int => decide (e < 5)) [1, 3, 3, 5, 5, 5, 9] : Nat) : Int) - 1 = 2 :=
  ⟨by decide, by decide,
    (rsb_lt_vec_counts_lt [1, 3, 3, 5, 5, 5, 9] 5 (by decide) (by decide)).1, by decide⟩

/-! ## Index safety of the searches -/

/-- C18: for every vector of length `n ≥ 1`, every target and every comparator.
In each iteration, from a state `begin < end < n`, the element accessed is at
the midpoint, which is below `n`, and in `rsb_lt_vec` and `rsb_eq_vec` the
midpoint `cur` is at least 1, so that `cur - 1` does not wrap.  The loop of each
entry point exits with `begin = end` at a position below `n`, which is the
position of the last access (or, in `rsb_eq_vec`, returns a position below `n`
from inside the loop).  So no run of `rsb_gt_vec`, `rsb_lt_vec` or `rsb_eq_vec`
accesses an element outside `[0, n)` or fails its assertion. -/
theorem searches_index_safe {σ α : Type} (vec : List α) (s : σ) (cmp : rsbcompare σ α)
    (hn : 1 ≤ vec.length) :
    (∀ begin end_ : Nat, begin < end_ → end_ < vec.length →
      floorMid begin end_ < vec.length ∧
      vecAt vec (floorMid begin end_) ≠ Res.error Fault.outOfRange ∧
      rsb_gt_step vec s cmp begin end_ ≠ Res.error Fault.outOfRange) ∧
    (∀ begin end_ : Nat, begin < end_ → end_ < vec.length →
      ceilMid begin end_ < vec.length ∧ 1 ≤ ceilMid begin end_ ∧
      size_sub (ceilMid begin end_) 1 + 1 = ceilMid begin end_ ∧
      vecAt vec (ceilMid begin end_) ≠ Res.error Fault.outOfRange ∧
      rsb_lt_step vec s cmp begin end_ ≠ Res.error Fault.outOfRange ∧
      rsb_eq_step vec s cmp begin end_ ≠ Res.error Fault.outOfRange) ∧
    (∃ b, rsb_gt_loop vec s cmp (vec.length + 1) 0 (size_sub vec.length 1) = Res.ok (b, b) ∧
      b < vec.length) ∧
    (∃ b, rsb_lt_loop vec s cmp (vec.length + 1) 0 (size_sub vec.length 1) = Res.ok (b, b) ∧
      b < vec.length) ∧
    (∃ b, b < vec.length ∧
      (rsb_eq_loop vec s cmp (vec.length + 1) 0 (size_sub vec.length 1)
          = Res.ok (EqStep.found b) ∨
        rsb_eq_loop vec s cmp (vec.length + 1) 0 (size_sub vec.length 1)
          = Res.ok (EqStep.next b b))) ∧
    (rsb_gt_vec vec s cmp ≠ Res.error Fault.outOfRange ∧
      rsb_gt_vec vec s cmp ≠ Res.error Fault.assertion) ∧
    (rsb_lt_vec vec s cmp ≠ Res.error Fault.outOfRange ∧
      rsb_lt_vec vec s cmp ≠ Res.error Fault.assertion) ∧
    (rsb_eq_vec vec s cmp ≠ Res.error Fault.outOfRange ∧
      rsb_eq_vec vec s cmp ≠ Res.error Fault.assertion) := by
  have hend : size_sub vec.length 1 = vec.length - 1 := size_sub_one hn
  have hgt := rsb_gt_loop_exits vec s cmp (vec.length + 1) 0 (vec.length - 1)
    (Nat.zero_le _) (by omega) (by omega)
  have hlt := rsb_lt_loop_exits vec s cmp (vec.length + 1) 0 (vec.length - 1)
    (Nat.zero_le _) (by omega) (by omega)
  have heq := rsb_eq_loop_exits vec s cmp (vec.length + 1) 0 (vec.length - 1)
    (Nat.zero_le _) (by omega) (by omega)
  rw [← hend] at hgt hlt heq
  refine ⟨?_, ?_, ?_, ?_, ?_, ?_, ?_, ?_⟩
  · intro begin end_ hbe he
    have hb := floorMid_bounds hbe
    have h : floorMid begin end_ < vec.length := by omega
    refine ⟨h, ?_, ?_⟩
    · rw [vecAt_of_lt vec _ h]
      exact fun hc => Res.noConfusion hc
    · obtain ⟨b, e, hstep, _⟩ := rsb_gt_step_narrows vec s cmp begin end_ hbe he
      rw [hstep]
      exact fun hc => Res.noConfusion hc
  · intro begin end_ hbe he
    have hb := ceilMid_bounds hbe
    have h : ceilMid begin end_ < vec.length := by omega
    have h1 : 1 ≤ ceilMid begin end_ := by omega
    refine ⟨h, h1, ?_, ?_, ?_, ?_⟩
    · rw [size_sub_one h1]
      omega
    · rw [vecAt_of_lt vec _ h]
      exact fun hc => Res.noConfusion hc
    · obtain ⟨b, e, hstep, _⟩ := rsb_lt_step_narrows vec s cmp begin end_ hbe he
      rw [hstep]
      exact fun hc => Res.noConfusion hc
    · rcases rsb_eq_step_narrows vec s cmp begin end_ hbe he with
        ⟨c, hstep⟩ | ⟨b, e, hstep, _⟩ <;>
      · rw [hstep]
        exact fun hc => Res.noConfusion hc
  · obtain ⟨b, hb, _, h2⟩ := hgt
    exact ⟨b, hb, by omega⟩
  · obtain ⟨b, hb, _, h2⟩ := hlt
    exact ⟨b, hb, by omega⟩
  · rcases heq with ⟨c, hc, _, h2, _⟩ | ⟨b, hb, _, h2⟩
    · exact ⟨c, by omega, Or.inl hc⟩
    · exact ⟨b, by omega, Or.inr hb⟩
  · obtain ⟨b, hb, _, h2⟩ := hgt
    rw [rsb_gt_vec_of_loop vec s cmp b (by omega) hb]
    constructor <;> split_ifs <;> exact fun hc => Res.noConfusion hc
  · obtain ⟨b, hb, _, h2⟩ := hlt
    rw [rsb_lt_vec_of_loop vec s cmp b (by omega) hb]
    constructor <;> split_ifs <;> exact fun hc => Res.noConfusion hc
  · rcases heq with ⟨c, hc, _, h2, _⟩ | ⟨b, hb, _, h2⟩
    · rw [rsb_eq_vec_of_found vec s cmp c hc]
      constructor <;> exact fun hc => Res.noConfusion hc
    · rw [rsb_eq_vec_of_loop vec s cmp b (by omega) hb]
      constructor <;> split_ifs <;> exact fun hc => Res.noConfusion hc

/-- Witness of C18: the unordered vector `[4, 2, 8]`, the target `3` and the
comparator `sign(t - e)`. -/
theorem searches_index_safe_witness :
    1 ≤ ([4, 2, 8] : List Int).length ∧
    (rsb_gt_vec [4, 2, 8] (3 : Int) intCmp ≠ Res.error Fault.outOfRange ∧
      rsb_gt_vec [4, 2, 8] (3 : Int) intCmp ≠ Res.error Fault.assertion) ∧
    (rsb_lt_vec [4, 2, 8] (3 : Int) intCmp ≠ Res.error Fault.outOfRange ∧
      rsb_lt_vec [4, 2, 8] (3 : Int) intCmp ≠ Res.error Fault.assertion) ∧
    (rsb_eq_vec [4, 2, 8] (3 : Int) intCmp ≠ Res.error Fault.outOfRange ∧
      rsb_eq_vec [4, 2, 8] (3 : Int) intCmp ≠ Res.error Fault.assertion) :=
  ⟨by decide, (searches_index_safe [4, 2, 8] (3 : Int) intCmp (by decide)).2.2.2.2.2⟩

end RediSearch
